import Mathlib

/-!
# Verification of the pino-graylog transport

Shallow embedding of the transport's core components and proofs about the
spec's claims:

* `MessageQueue` — the bounded FIFO queue with overflow policy
  (`lib/message-queue.ts`).
* `FlushManager` — pending-write tracking and the flush/drain protocol
  (`lib/flush-manager.ts`).
* `Transport` — the `PinoGraylogTransport` write/connect/flush state machine
  (`lib/pino-graylog-transport.ts`), driven by an explicit event list.
* `Gelf` — the GELF formatter (`lib/gelf-formatter.ts`) over an inductive
  model of JavaScript values.
* `UdpClient` — the datagram client (`lib/udp-client.ts`).

JavaScript state is modelled by explicit state passing; callbacks are
modelled by event logs recorded in the state; `Option` models exceptions.
-/

/-! ## MessageQueue (lib/message-queue.ts)

State of a `MessageQueue` instance.  The `onDropped` callback is modelled by
the `notifications` log: each call appends its `(reason, count)` arguments. -/

structure MessageQueue where
  queue : List String
  droppedCount : Nat
  maxSize : Nat
  dropWhenFull : Bool
  notifications : List (String × Nat)
deriving Repr, DecidableEq

/-- The constructor: empty queue, zero dropped, options as given. -/
def MessageQueue.init (maxSize : Nat) (dropWhenFull : Bool) : MessageQueue :=
  { queue := [], droppedCount := 0, maxSize := maxSize,
    dropWhenFull := dropWhenFull, notifications := [] }

/-- `enqueue(message)`: if the queue is at capacity, count a drop and either
reject the new message (`dropWhenFull`) or shift the oldest out and push the
new one; the `onDropped` callback fires on every 100th drop
(count % 100 == 1).  Returns the boolean result together with the new
state. -/
def MessageQueue.enqueue (q : MessageQueue) (message : String) :
    Bool × MessageQueue :=
  if q.queue.length ≥ q.maxSize then
    if q.dropWhenFull then
      (false,
        { q with
          droppedCount := q.droppedCount + 1,
          notifications :=
            if (q.droppedCount + 1) % 100 = 1 then
              q.notifications ++
                [("Queue full, dropWhenFull=true", q.droppedCount + 1)]
            else q.notifications })
    else
      (true,
        { q with
          queue := q.queue.tail ++ [message],
          droppedCount := q.droppedCount + 1,
          notifications :=
            if (q.droppedCount + 1) % 100 = 1 then
              q.notifications ++
                [("Queue at max capacity, dropping oldest messages",
                  q.droppedCount + 1)]
            else q.notifications })
  else
    (true, { q with queue := q.queue ++ [message] })

/-- `flush()`: return all messages and clear the queue. -/
def MessageQueue.flushQ (q : MessageQueue) : List String × MessageQueue :=
  (q.queue, { q with queue := [] })

/-- `size()`. -/
def MessageQueue.size (q : MessageQueue) : Nat := q.queue.length

/-- `getDroppedCount()`. -/
def MessageQueue.getDroppedCount (q : MessageQueue) : Nat := q.droppedCount

/-- `getMaxSize()`. -/
def MessageQueue.getMaxSize (q : MessageQueue) : Nat := q.maxSize

/-- An operation on the queue, for quantifying over call sequences. -/
inductive MQOp where
  | enq (message : String)
  | flushOp
deriving Repr, DecidableEq

def MessageQueue.applyOp (op : MQOp) (q : MessageQueue) : MessageQueue :=
  match op with
  | .enq m => (q.enqueue m).2
  | .flushOp => (q.flushQ).2

def MessageQueue.runOps (ops : List MQOp) (q : MessageQueue) : MessageQueue :=
  ops.foldl (fun st op => MessageQueue.applyOp op st) q

/-! ### C4: drop-oldest overflow accounting -/

/-- Enqueue a list of messages in order, discarding the boolean results
(as `queueMessage` in the transport does). -/
def MessageQueue.enqueueAll (msgs : List String) (q : MessageQueue) : MessageQueue :=
  msgs.foldl (fun st m => (st.enqueue m).2) q

/-! ## FlushManager (lib/flush-manager.ts)

State of a `FlushManager` instance.  Each `flush()` call that registers a
drain resolver gets a record in `flushes` (its index is the resolver id);
`drainResolvers` holds the ids of the currently registered resolvers in
registration order.  `resolved` models the closure-local `resolved` flag of
`doResolve`; `timerActive` models whether the flush's `setTimeout` is still
pending (cleared by `clearTimeout` or consumed by firing).
`pendingWrites` is an `Int` because `writeComplete` decrements it without a
floor; `flushCount` is a `Nat` because `decrementFlushCount` clamps at 0
with `Math.max`, which truncated subtraction models exactly.  The
`opts.getQueueSize()` callback is modelled by passing the current queue
size `qsize` to the operations that read it. -/

structure FlushRec where
  resolved : Bool
  timerActive : Bool
deriving Repr, DecidableEq

structure FlushManager where
  pendingWrites : Int
  flushCount : Nat
  drainResolvers : List Nat
  flushes : List FlushRec
deriving Repr, DecidableEq

/-- The constructor: all counters zero, no resolvers. -/
def FlushManager.init : FlushManager :=
  { pendingWrites := 0, flushCount := 0, drainResolvers := [], flushes := [] }

/-- `getPendingWrites()`. -/
def FlushManager.getPendingWrites (s : FlushManager) : Int := s.pendingWrites

/-- `getPendingWriteCount()` = `pendingWrites + opts.getQueueSize()`. -/
def FlushManager.getPendingWriteCount (qsize : Nat) (s : FlushManager) : Int :=
  s.pendingWrites + qsize

/-- `isFlushInProgress()`. -/
def FlushManager.isFlushInProgress (s : FlushManager) : Bool := s.flushCount > 0

/-- `trackWrite()`: increments `pendingWrites` only while a flush is in
progress. -/
def FlushManager.trackWrite (s : FlushManager) : Bool × FlushManager :=
  if s.flushCount > 0 then
    (true, { s with pendingWrites := s.pendingWrites + 1 })
  else
    (false, s)

/-- The `doResolve` closure of flush `i` (lines 140-150 of
flush-manager.ts): a no-op when already resolved; otherwise marks itself
resolved, decrements the flush count (clamped at 0), clears its own timer,
removes itself from `drainResolvers` (`indexOf`/`splice` removes the first
occurrence) and fulfils its promise. -/
def FlushManager.doResolve (i : Nat) (s : FlushManager) : FlushManager :=
  match s.flushes.get? i with
  | none => s
  | some r =>
    if r.resolved then s
    else
      { s with
        flushCount := s.flushCount - 1,
        drainResolvers := s.drainResolvers.erase i,
        flushes := s.flushes.set i { resolved := true, timerActive := false } }

/-- `checkDrain()`: when no tracked writes are in flight and the queue is
empty, splice out all registered resolvers and invoke each of them. -/
def FlushManager.checkDrain (qsize : Nat) (s : FlushManager) : FlushManager :=
  if s.pendingWrites = 0 ∧ qsize = 0 then
    (s.drainResolvers).foldl (fun st i => FlushManager.doResolve i st)
      { s with drainResolvers := [] }
  else s

/-- `writeComplete()`: decrement and re-check the drain condition. -/
def FlushManager.writeComplete (qsize : Nat) (s : FlushManager) : FlushManager :=
  FlushManager.checkDrain qsize { s with pendingWrites := s.pendingWrites - 1 }

/-- The timer of flush `i` firing: `setTimeout(doResolve, timeout)` invokes
`doResolve` only while the timeout is still pending. -/
def FlushManager.timerFire (i : Nat) (s : FlushManager) : FlushManager :=
  match s.flushes.get? i with
  | none => s
  | some r => if r.timerActive then FlushManager.doResolve i s else s

/-- The synchronous core of `flush(timeout)` (lines 97-157), in the case
where no connection promise is pending and no connection attempt is needed:
increment the flush count; if nothing is pending resolve immediately
(decrementing the count, assuming an empty socket outbound buffer);
otherwise register a fresh resolver with an armed timer and run
`checkDrain`.  Returns the id of the registered resolver, if any. -/
def FlushManager.flushCall (qsize : Nat) (s : FlushManager) :
    Option Nat × FlushManager :=
  let s1 : FlushManager := { s with flushCount := s.flushCount + 1 }
  if s1.pendingWrites = 0 ∧ qsize = 0 then
    (none, { s1 with flushCount := s1.flushCount - 1 })
  else
    let i := s1.flushes.length
    let s2 : FlushManager :=
      { s1 with
        flushes := s1.flushes ++ [{ resolved := false, timerActive := true }],
        drainResolvers := s1.drainResolvers ++ [i] }
    (some i, FlushManager.checkDrain qsize s2)

/-- A state with two flush calls outstanding against a non-empty queue,
used as the concrete input of the C1 witness. -/
def FlushManager.sampleTwoFlushes : FlushManager :=
  (FlushManager.flushCall 1 (FlushManager.flushCall 1 FlushManager.init).2).2

/-! ## PinoGraylogTransport (lib/pino-graylog-transport.ts), TCP/TLS path

The transport is modelled as a state machine driven by an explicit event
list.  `written` is the log of messages handed to `socket.write`, in order.
The ghost counters `trackedInflight`/`untrackedInflight` count writes that
have been issued but whose completion has not yet occurred, according to
whether `trackWrite()` returned true (a completion callback invoking
`writeComplete` was registered) or false (no callback).  The asynchronous
connection attempt triggered by `queueMessage`/`flush` is modelled by the
separate `connectOk` event (a failing attempt only reports an error and
changes none of the modelled state). -/

structure Transport where
  connected : Bool
  written : List String
  mq : MessageQueue
  fm : FlushManager
  trackedInflight : Nat
  untrackedInflight : Nat
deriving Repr, DecidableEq

/-- The freshly constructed transport (TCP/TLS: not yet connected). -/
def Transport.init (maxQueueSize : Nat) (dropWhenFull : Bool) : Transport :=
  { connected := false, written := [],
    mq := MessageQueue.init maxQueueSize dropWhenFull,
    fm := FlushManager.init, trackedInflight := 0, untrackedInflight := 0 }

/-- `writeToSocket`: issue a socket write; track it only when a flush is in
progress (`trackWrite`), registering a completion callback in that case. -/
def Transport.writeToSocket (message : String) (s : Transport) : Transport :=
  let t := s.fm.trackWrite
  if t.1 then
    { s with
      fm := t.2,
      written := s.written ++ [message],
      trackedInflight := s.trackedInflight + 1 }
  else
    { s with
      fm := t.2,
      written := s.written ++ [message],
      untrackedInflight := s.untrackedInflight + 1 }

/-- `flushQueuedMessages`: write each drained message while the socket is
still live (the model has no concurrent socket destruction, so the guard
stays true). -/
def Transport.writeAll (msgs : List String) (s : Transport) : Transport :=
  msgs.foldl
    (fun st m => if st.connected then Transport.writeToSocket m st else st) s

/-- Events driving the transport state machine. -/
inductive TEvent where
  | accept (message : String)
  | connectOk
  | socketDown
  | completeTracked
  | completeUntracked
  | flushStart
deriving Repr, DecidableEq

/-- One transition.  `accept m` is `_write` with an already-formatted
message `m`: write through when connected, otherwise `queueMessage`.
`connectOk` is the `onConnect` callback: mark connected and flush the
queue in FIFO order.  `socketDown` is the socket error/close handler:
`this.socket = null`, queue preserved.  `completeTracked` is the completion
callback of a tracked write (`writeComplete`); `completeUntracked` is the
completion of an untracked write (no callback was registered).
`flushStart` is the synchronous part of a `flush()` call. -/
def Transport.step (e : TEvent) (s : Transport) : Transport :=
  match e with
  | .accept m =>
    if s.connected then Transport.writeToSocket m s
    else { s with mq := (s.mq.enqueue m).2 }
  | .connectOk =>
    let d := s.mq.flushQ
    Transport.writeAll d.1 { s with connected := true, mq := d.2 }
  | .socketDown => { s with connected := false }
  | .completeTracked =>
    if s.trackedInflight > 0 then
      { s with
        trackedInflight := s.trackedInflight - 1,
        fm := s.fm.writeComplete s.mq.size }
    else s
  | .completeUntracked =>
    if s.untrackedInflight > 0 then
      { s with untrackedInflight := s.untrackedInflight - 1 }
    else s
  | .flushStart => { s with fm := (s.fm.flushCall s.mq.size).2 }

def Transport.run (evs : List TEvent) (s : Transport) : Transport :=
  evs.foldl (fun st e => Transport.step e st) s

/-- The messages accepted by an event sequence, in call order. -/
def TEvent.acceptedOf : TEvent → List String
  | .accept m => [m]
  | _ => []

def acceptedList (evs : List TEvent) : List String :=
  (evs.map TEvent.acceptedOf).flatten

/-- `getPendingWriteCount()` of the transport: delegates to the flush
manager with the current queue size. -/
def Transport.getPendingWriteCount (s : Transport) : Int :=
  s.fm.getPendingWriteCount s.mq.size

/-- The outstanding work of the transport: every write issued to the socket
but not yet completed, plus every message still queued (the quantity C5
says `getPendingWriteCount()` never undercounts). -/
def Transport.outstandingWork (s : Transport) : Int :=
  (s.trackedInflight : Int) + s.untrackedInflight + s.mq.size

/-! ## JavaScript values

An inductive model of the JavaScript values a log record can contain:
strings, numbers (restricted to integers in this model), booleans, `null`,
`undefined`, BigInt values, and finite (acyclic) objects and arrays.
Cyclic object graphs are not representable here; like BigInt values they
make `JSON.stringify` throw, and `vbig` stands in for that class of
non-serializable values. -/

mutual
inductive JsVal where
  | vstr (s : String)
  | vnum (n : Int)
  | vbool (b : Bool)
  | vnull
  | vundef
  | vbig (n : Int)
  | vobj (fields : JsFields)
  | varr (items : JsItems)
deriving Repr
inductive JsFields where
  | fnil
  | fcons (key : String) (value : JsVal) (rest : JsFields)
deriving Repr
inductive JsItems where
  | inil
  | icons (value : JsVal) (rest : JsItems)
deriving Repr
end

/-- JavaScript truthiness. -/
def JsVal.truthy : JsVal → Bool
  | .vstr s => s ≠ ""
  | .vnum n => n ≠ 0
  | .vbool b => b
  | .vnull => false
  | .vundef => false
  | .vbig n => n ≠ 0
  | .vobj _ => true
  | .varr _ => true

/-! A value on which `JSON.stringify` succeeds: no BigInt anywhere. -/

mutual
def serializableV : JsVal → Bool
  | .vbig _ => false
  | .vobj fs => serializableF fs
  | .varr xs => serializableI xs
  | _ => true
def serializableF : JsFields → Bool
  | .fnil => true
  | .fcons _ v rest => serializableV v && serializableF rest
def serializableI : JsItems → Bool
  | .inil => true
  | .icons v rest => serializableV v && serializableI rest
end

/-- A JSON string literal.  Escaping of special characters inside the
string is not modelled. -/
def jsonQuote (s : String) : String := "\"" ++ s ++ "\""

/-! Model of the runtime's `JSON.stringify`.  `none` models the thrown
`TypeError` on a BigInt value.  Keys bound to `undefined` are omitted from
objects; `undefined` in an array position serializes as `null` (a
stand-alone `undefined` never reaches this function in the formatter). -/

mutual
def jsonStringify : JsVal → Option String
  | .vstr s => some (jsonQuote s)
  | .vnum n => some (toString n)
  | .vbool b => some (if b then "true" else "false")
  | .vnull => some "null"
  | .vundef => some "null"
  | .vbig _ => none
  | .vobj fs => do
    pure ("\x7b" ++ String.intercalate "," (← jsonStringifyFields fs) ++ "\x7d")
  | .varr xs => do
    pure ("[" ++ String.intercalate "," (← jsonStringifyItems xs) ++ "]")
def jsonStringifyFields : JsFields → Option (List String)
  | .fnil => some []
  | .fcons k v rest =>
    match v with
    | .vundef => jsonStringifyFields rest
    | _ => do
      let sv ← jsonStringify v
      let srest ← jsonStringifyFields rest
      pure ((jsonQuote k ++ ":" ++ sv) :: srest)
def jsonStringifyItems : JsItems → Option (List String)
  | .inil => some []
  | .icons v rest => do
    let sv ← jsonStringify v
    let srest ← jsonStringifyItems rest
    pure (sv :: srest)
end

/-! ### Model of the runtime's `JSON.parse`

A fueled recursive-descent parser for a core of JSON: objects, arrays,
strings without escape sequences, integer numbers, booleans and null.
Inputs outside this core (string escapes, fractional numbers) parse as
failures, which the formatter turns into its raw-text fallback.
No theorem depends on the parser's internals. -/

def jsonIsDigit (c : Char) : Bool := 48 ≤ c.toNat && c.toNat ≤ 57

def skipWs : List Char → List Char
  | c :: rest =>
    if c = ' ' ∨ c = '\n' ∨ c = '\t' ∨ c = '\r' then skipWs rest else c :: rest
  | [] => []

def parseJsonStringAux : List Char → List Char → Option (String × List Char)
  | acc, c :: rest =>
    if c = '"' then some (String.mk acc.reverse, rest)
    else if c = '\\' then none
    else parseJsonStringAux (c :: acc) rest
  | _, [] => none

def parseJsonNatAux : Nat → List Char → Nat × List Char
  | acc, c :: rest =>
    if jsonIsDigit c then parseJsonNatAux (acc * 10 + (c.toNat - 48)) rest
    else (acc, c :: rest)
  | acc, [] => (acc, [])

def parseJsonNat : List Char → Option (Nat × List Char)
  | c :: rest =>
    if jsonIsDigit c then some (parseJsonNatAux 0 (c :: rest)) else none
  | [] => none

mutual
def parseJsonVal : Nat → List Char → Option (JsVal × List Char)
  | 0, _ => none
  | fuel + 1, cs =>
    match skipWs cs with
    | [] => none
    | c :: rest =>
      if c = Char.ofNat 123 then
        match skipWs rest with
        | c2 :: rest2 =>
          if c2 = Char.ofNat 125 then some (.vobj .fnil, rest2)
          else
            match parseJsonMembers fuel (c2 :: rest2) with
            | some (fs, rest3) => some (.vobj fs, rest3)
            | none => none
        | [] => none
      else if c = '[' then
        match skipWs rest with
        | c2 :: rest2 =>
          if c2 = ']' then some (.varr .inil, rest2)
          else
            match parseJsonElems fuel (c2 :: rest2) with
            | some (xs, rest3) => some (.varr xs, rest3)
            | none => none
        | [] => none
      else if c = '"' then
        match parseJsonStringAux [] rest with
        | some (s, rest2) => some (.vstr s, rest2)
        | none => none
      else if c = 't' then
        match rest with
        | 'r' :: 'u' :: 'e' :: rest2 => some (.vbool true, rest2)
        | _ => none
      else if c = 'f' then
        match rest with
        | 'a' :: 'l' :: 's' :: 'e' :: rest2 => some (.vbool false, rest2)
        | _ => none
      else if c = 'n' then
        match rest with
        | 'u' :: 'l' :: 'l' :: rest2 => some (.vnull, rest2)
        | _ => none
      else if c = '-' then
        match parseJsonNat rest with
        | some (n, rest2) => some (.vnum (-(n : Int)), rest2)
        | none => none
      else if jsonIsDigit c then
        match parseJsonNat (c :: rest) with
        | some (n, rest2) => some (.vnum (n : Int), rest2)
        | none => none
      else none
def parseJsonMembers : Nat → List Char → Option (JsFields × List Char)
  | 0, _ => none
  | fuel + 1, cs =>
    match skipWs cs with
    | '"' :: rest =>
      match parseJsonStringAux [] rest with
      | some (k, rest2) =>
        match skipWs rest2 with
        | ':' :: rest3 =>
          match parseJsonVal fuel rest3 with
          | some (v, rest4) =>
            match skipWs rest4 with
            | ',' :: rest5 =>
              match parseJsonMembers fuel rest5 with
              | some (fs, rest6) => some (.fcons k v fs, rest6)
              | none => none
            | c :: rest5 =>
              if c = Char.ofNat 125 then some (.fcons k v .fnil, rest5)
              else none
            | [] => none
          | none => none
        | _ => none
      | none => none
    | _ => none
def parseJsonElems : Nat → List Char → Option (JsItems × List Char)
  | 0, _ => none
  | fuel + 1, cs =>
    match parseJsonVal fuel cs with
    | some (v, rest) =>
      match skipWs rest with
      | ',' :: rest2 =>
        match parseJsonElems fuel rest2 with
        | some (xs, rest3) => some (.icons v xs, rest3)
        | none => none
      | c :: rest2 => if c = ']' then some (.icons v .inil, rest2) else none
      | [] => none
    | none => none
end

def jsonParse (s : String) : Option JsVal :=
  match parseJsonVal (s.length + 1) s.data with
  | some (v, rest) => if (skipWs rest).isEmpty then some v else none
  | none => none

/-! ## GELF formatter (lib/gelf-formatter.ts) -/

/-- `obj.key`: look up a field of a record (JavaScript object keys are
unique; the first binding wins). -/
def getField (fs : JsFields) (key : String) : Option JsVal :=
  match fs with
  | .fnil => none
  | .fcons k v rest => if k == key then some v else getField rest key

/-- The reserved record fields skipped by `addCustomFields`. -/
def EXCLUDED_FIELDS : List String :=
  ["msg", "message", "level", "time", "pid", "hostname", "stack", "v", "err"]

/-- `mapPinoLevelToGelf`.  The argument is `obj.level`: `none` models a
missing level.  `!pinoLevel` in the source is also true for the number 0,
so level 0 takes the missing-level default of 6. -/
def mapPinoLevelToGelf (pinoLevel : Option Int) : Int :=
  match pinoLevel with
  | none => 6
  | some l =>
    if l = 0 then 6
    else if l ≥ 60 then 2
    else if l ≥ 50 then 3
    else if l ≥ 40 then 4
    else if l ≥ 30 then 6
    else if l ≥ 20 then 7
    else 7

/-- The trimmed input starts with a brace or bracket (char codes 123 and
91), `parseChunk`'s heuristic for attempting `JSON.parse`. -/
def looksLikeJson (s : String) : Bool :=
  match s.data.dropWhile (fun c => c = ' ' || c = '\n' || c = '\t' || c = '\r') with
  | [] => false
  | c :: _ => c = Char.ofNat 123 || c = Char.ofNat 91

/-- A parsed JSON array used as a record: `for...in` over a JavaScript
array enumerates its indices as string keys. -/
def itemsToFields : Nat → JsItems → JsFields
  | _, .inil => .fnil
  | i, .icons v rest => .fcons (toString i) v (itemsToFields (i + 1) rest)

/-- `parseChunk`: objects (including arrays) are returned as the record
itself; strings that look like JSON are parsed, falling back to wrapping
the raw payload as `msg` on failure; every other value wraps the empty
string (`let str = ''` is never reassigned for numbers/booleans/null). -/
def parseChunk (chunk : JsVal) : JsFields :=
  match chunk with
  | .vobj fields => fields
  | .varr items => itemsToFields 0 items
  | .vstr s =>
    if looksLikeJson s then
      match jsonParse s with
      | some (.vobj fields) => fields
      | some (.varr items) => itemsToFields 0 items
      | _ => .fcons "msg" (.vstr s) .fnil
    else .fcons "msg" (.vstr s) .fnil
  | _ => .fcons "msg" (.vstr "") .fnil

/-- `extractMessage`: the first string-typed field among `msg`, `message`,
`short_message`, else the serialized dump of the whole record (`none`
models the `JSON.stringify` throw on a non-serializable record). -/
def extractMessage (obj : JsFields) : Option String :=
  match getField obj "msg" with
  | some (.vstr s) => some s
  | _ =>
    match getField obj "message" with
    | some (.vstr s) => some s
    | _ =>
      match getField obj "short_message" with
      | some (.vstr s) => some s
      | _ => jsonStringify (.vobj obj)

/-- The GELF message under construction.  The five standard fields are
struct fields; `extra` holds the underscore-prefixed custom/static fields
in insertion order.  Since every custom/static field name starts with an
underscore and no standard field name does, `fieldName in gelfMessage`
is exactly membership in `extra`. -/
structure GelfMessage where
  version : String
  host : String
  short_message : String
  full_message : Option String
  timestamp : Rat
  level : Int
  extra : List (String × JsVal)
deriving Repr

/-- `obj[key]` on the extras list (keys are unique, the first binding
wins). -/
def lookupExtra : List (String × JsVal) → String → Option JsVal
  | [], _ => none
  | p :: rest, key => if p.1 == key then some p.2 else lookupExtra rest key

/-- Property assignment on the extras list: update the existing binding in
place, else append (JavaScript object key-order semantics). -/
def setExtraList : List (String × JsVal) → String → JsVal →
    List (String × JsVal)
  | [], key, v => [(key, v)]
  | p :: rest, key, v =>
    if p.1 == key then (key, v) :: rest else p :: setExtraList rest key v

/-- `gelfMessage[fieldName] = v`. -/
def GelfMessage.setExtra (g : GelfMessage) (key : String) (v : JsVal) :
    GelfMessage :=
  { g with extra := setExtraList g.extra key v }

/-- `fieldName in gelfMessage`, for underscore-prefixed field names. -/
def GelfMessage.hasExtra (g : GelfMessage) (key : String) : Bool :=
  (lookupExtra g.extra key).isSome

/-- Read back a custom/static field of the wire message. -/
def GelfMessage.getExtra (g : GelfMessage) (key : String) : Option JsVal :=
  lookupExtra g.extra key

/-- `key.charCodeAt(0) === 95 ? key : underscore + key`. -/
def prefixKey (key : String) : String :=
  if key.data.head? = some (Char.ofNat 95) then key else "_" ++ key

/-- `typeof value === 'object'` for values that already passed the
null/undefined guards. -/
def JsVal.isObjectLike : JsVal → Bool
  | .vobj _ => true
  | .varr _ => true
  | _ => false

/-- `addStaticMetadata`: each non-null, non-undefined static value is
assigned under its underscore-prefixed name; objects and arrays are
serialized to a JSON string (`none` models a `JSON.stringify` throw). -/
def addStaticMetadata (g : GelfMessage) (staticMeta : JsFields) :
    Option GelfMessage :=
  match staticMeta with
  | .fnil => some g
  | .fcons key value rest =>
    match value with
    | .vundef => addStaticMetadata g rest
    | .vnull => addStaticMetadata g rest
    | v =>
      if v.isObjectLike then
        match jsonStringify v with
        | some sv => addStaticMetadata (g.setExtra (prefixKey key) (.vstr sv)) rest
        | none => none
      else addStaticMetadata (g.setExtra (prefixKey key) v) rest

/-- `addStackTrace`: a string `stack` field, else a string `err.stack`,
becomes `full_message`. -/
def addStackTrace (g : GelfMessage) (obj : JsFields) : GelfMessage :=
  match getField obj "stack" with
  | some (.vstr s) => { g with full_message := some s }
  | _ =>
    match getField obj "err" with
    | some (.vobj errFields) =>
      match getField errFields "stack" with
      | some (.vstr s) => { g with full_message := some s }
      | _ => g
    | _ => g

/-- The `for...in` loop of `addCustomFields`: skip reserved keys and
null/undefined values, underscore-prefix the key, never overwrite an
already-set field, serialize object/array values to a JSON string. -/
def addCustomFieldsLoop (g : GelfMessage) (obj : JsFields) :
    Option GelfMessage :=
  match obj with
  | .fnil => some g
  | .fcons key value rest =>
    if EXCLUDED_FIELDS.contains key then addCustomFieldsLoop g rest
    else
      match value with
      | .vundef => addCustomFieldsLoop g rest
      | .vnull => addCustomFieldsLoop g rest
      | v =>
        let fieldName := prefixKey key
        if g.hasExtra fieldName then addCustomFieldsLoop g rest
        else if v.isObjectLike then
          match jsonStringify v with
          | some sv => addCustomFieldsLoop (g.setExtra fieldName (.vstr sv)) rest
          | none => none
        else addCustomFieldsLoop (g.setExtra fieldName v) rest

/-- `addCustomFields`: the loop above, then the unconditional
`if (obj.pid) gelfMessage._pid = obj.pid` assignment. -/
def addCustomFields (g : GelfMessage) (obj : JsFields) : Option GelfMessage := do
  let g1 ← addCustomFieldsLoop g obj
  match getField obj "pid" with
  | some v => if v.truthy then pure (g1.setExtra "_pid" v) else pure g1
  | none => pure g1

/-- `obj.level as number`: the model assumes that a present `level` field
holds a number (non-numeric levels would go through JavaScript's numeric
coercion, which is outside this model). -/
def levelOf (obj : JsFields) : Option Int :=
  match getField obj "level" with
  | some (.vnum n) => some n
  | _ => none

/-- The base GELF 1.1 message of `formatGelfMessage`: the five standard
fields (with `* 1e-3` modelled as exact division by 1000, `now` being the
model's `Date.now()` in milliseconds), and the deprecated `_facility`
custom field when the facility string is truthy. -/
def gelfInit (obj : JsFields) (hostname : String) (facility : String)
    (now : Rat) (shortMsg : String) : GelfMessage :=
  let timestamp : Rat :=
    match getField obj "time" with
    | some (.vnum t) => (t : Rat) / 1000
    | _ => now / 1000
  let g0 : GelfMessage :=
    { version := "1.1", host := hostname, short_message := shortMsg,
      full_message := none, timestamp := timestamp,
      level := mapPinoLevelToGelf (levelOf obj), extra := [] }
  if facility ≠ "" then g0.setExtra "_facility" (.vstr facility) else g0

/-- The GELF message built by `formatGelfMessage` before the final
`JSON.stringify`: parse the chunk, extract the message text, build the
base message, then apply static metadata, the stack trace, and the custom
fields, in that order. -/
def buildGelf (chunk : JsVal) (hostname : String) (facility : String)
    (staticMeta : JsFields) (now : Rat) : Option GelfMessage := do
  let obj := parseChunk chunk
  let shortMsg ← extractMessage obj
  let g1 := gelfInit obj hostname facility now shortMsg
  let g2 ← addStaticMetadata g1 staticMeta
  let g3 := addStackTrace g2 obj
  addCustomFields g3 obj

/-- Model of JavaScript number printing for the timestamp. -/
def ratToString (q : Rat) : String := toString q

/-- Serialize the extras, skipping `undefined` values as `JSON.stringify`
does (none are ever stored by the formatter). -/
def stringifyExtras : List (String × JsVal) → Option (List String)
  | [] => some []
  | (k, v) :: rest =>
    match v with
    | .vundef => stringifyExtras rest
    | _ => do
      let sv ← jsonStringify v
      let srest ← stringifyExtras rest
      pure ((jsonQuote k ++ ":" ++ sv) :: srest)

/-- The final `JSON.stringify(gelfMessage)`.  The model prints the standard
fields first and then the extras; the exact placement of `full_message`
among the keys differs from the insertion order of the JavaScript object
but no claim depends on the layout. -/
def stringifyGelf (g : GelfMessage) : Option String := do
  let extras ← stringifyExtras g.extra
  let fullPart :=
    match g.full_message with
    | some fm => [jsonQuote "full_message" ++ ":" ++ jsonQuote fm]
    | none => []
  pure ("\x7b" ++ String.intercalate ","
    ([jsonQuote "version" ++ ":" ++ jsonQuote g.version,
      jsonQuote "host" ++ ":" ++ jsonQuote g.host,
      jsonQuote "short_message" ++ ":" ++ jsonQuote g.short_message,
      jsonQuote "timestamp" ++ ":" ++ ratToString g.timestamp,
      jsonQuote "level" ++ ":" ++ toString g.level] ++ fullPart ++ extras)
    ++ "\x7d")

/-- `formatGelfMessage`: build the GELF message and serialize it.  `none`
models an exception escaping the function. -/
def formatGelfMessage (chunk : JsVal) (hostname : String) (facility : String)
    (staticMeta : JsFields) (now : Rat) : Option String := do
  stringifyGelf (← buildGelf chunk hostname facility staticMeta now)

/-- The NUL delimiter appended for the session protocols. -/
def nulTerminator : String := String.mk [Char.ofNat 0]

/-- `_write` on the TCP/TLS path: format the record (an exception from the
formatter escapes `_write`, there is no try/catch), append the NUL
terminator and hand the message to the connected-socket or queue path;
the boolean records that the stream callback was invoked. -/
def writeChunk (chunk : JsVal) (hostname : String) (facility : String)
    (staticMeta : JsFields) (now : Rat) (s : Transport) :
    Option (Transport × Bool) :=
  match formatGelfMessage chunk hostname facility staticMeta now with
  | none => none
  | some gelfStr =>
    some (Transport.step (TEvent.accept (gelfStr ++ nulTerminator)) s, true)

/-- All extras of a GELF message hold serializable values. -/
def extrasOk (l : List (String × JsVal)) : Bool :=
  l.all (fun p => serializableV p.2)

/-- The keys of a record, in order. -/
def jsKeys : JsFields → List String
  | .fnil => []
  | .fcons k _ rest => k :: jsKeys rest

/-- A base message and record used by the C9 witness. -/
def gelfW : GelfMessage := gelfInit JsFields.fnil "h" "f" 0 "m"

def objW : JsFields :=
  .fcons "user" (.vobj (.fcons "id" (.vnum 5) .fnil))
    (.fcons "count" (.vnum 3) .fnil)

def cfLoopW : GelfMessage := (addCustomFieldsLoop gelfW objW).getD gelfW

def cfFullW : GelfMessage := (addCustomFields gelfW objW).getD gelfW

/-- The base message of the C9 counterexample run (facility empty, so no
`_facility` extra). -/
def pidBaseW : GelfMessage :=
  gelfInit (JsFields.fcons "msg" (JsVal.vstr "m")
    (JsFields.fcons "pid" (JsVal.vnum 9) JsFields.fnil)) "h" "" 0 "m"

/-! ## UdpClient (lib/udp-client.ts), Node.js runtime

`isBun` is false in this model, so `connect()` always takes the
`connectNode` path; `bunSocket` stays null and `bunSocketInitializing`
stays false (both kept as state fields because the source guards read
them).  Messages are modelled by their UTF-8 byte sequences, so
`Buffer.from(message).length` is the list length.  `datagrams` logs the
payloads handed to the socket; `errors` logs the `handleError` calls; the
OS accepting a datagram is modelled as an error-free send, so the per-call
callback receives no error.  A send result's second component is `none`
when the callback was never invoked, `some none` for `callback()` and
`some (some e)` for `callback(e)`. -/

structure UdpClient where
  nodeSocket : Bool
  bunSocket : Bool
  bunSocketInitializing : Bool
  isClosed : Bool
  datagrams : List (List Nat)
  errors : List String
deriving Repr, DecidableEq

/-- The constructor: no sockets yet, nothing sent. -/
def UdpClient.init : UdpClient :=
  { nodeSocket := false, bunSocket := false, bunSocketInitializing := false,
    isClosed := false, datagrams := [], errors := [] }

/-- `connect()`: a no-op when a socket exists or is initializing;
otherwise clear `isClosed` and create the Node socket (`connectNode`). -/
def UdpClient.connect (s : UdpClient) : UdpClient :=
  if s.nodeSocket || s.bunSocket || s.bunSocketInitializing then s
  else { s with isClosed := false, nodeSocket := true }

/-- The descriptive oversize error of `send`. -/
def oversizeError (len : Nat) : String :=
  "GELF UDP message exceeds 8192 bytes (" ++ toString len ++
    "). Message rejected. Consider using TCP/TLS for large messages or implement chunking."

/-- `send(message, callback)`: lazily connect if no socket exists, reject
messages over 8192 bytes (error callback plus per-call callback, nothing
written), otherwise hand the datagram to the Bun or Node socket and invoke
the callback; with no socket at all the optional chaining does nothing. -/
def UdpClient.send (s : UdpClient) (message : List Nat) :
    UdpClient × Option (Option String) :=
  let s0 := if s.nodeSocket = false ∧ s.bunSocket = false ∧
      s.bunSocketInitializing = false then s.connect else s
  if message.length > 8192 then
    ({ s0 with errors := s0.errors ++ [oversizeError message.length] },
      some (some (oversizeError message.length)))
  else if s0.bunSocket then
    ({ s0 with datagrams := s0.datagrams ++ [message] }, some none)
  else if s0.nodeSocket then
    ({ s0 with datagrams := s0.datagrams ++ [message] }, some none)
  else (s0, none)

/-- `isReady()`. -/
def UdpClient.isReady (s : UdpClient) : Bool := s.nodeSocket || s.bunSocket

/-- `close()`: mark closed, stop initialization, release both sockets. -/
def UdpClient.close (s : UdpClient) : UdpClient :=
  { s with
    isClosed := true,
    bunSocketInitializing := false,
    nodeSocket := false,
    bunSocket := false }

/-- A maximum-size (8192-byte) and an oversize (8193-byte) payload for the
C7 witness. -/
def datagram8192 : List Nat := List.replicate 8192 0

def datagram8193 : List Nat := List.replicate 8193 0

/-- `enqueue` leaves the configuration fields unchanged. -/
theorem MessageQueue.enqueue_config (q : MessageQueue) (m : String) :
    ((q.enqueue m).2.maxSize = q.maxSize) ∧
    ((q.enqueue m).2.dropWhenFull = q.dropWhenFull) ∧
    ((q.enqueue m).2.droppedCount = q.droppedCount ∨
      (q.enqueue m).2.droppedCount = q.droppedCount + 1) := by
  unfold MessageQueue.enqueue
  split
  · split <;> exact ⟨rfl, rfl, Or.inr rfl⟩
  · exact ⟨rfl, rfl, Or.inl rfl⟩

/-- `applyOp` leaves the configuration fields unchanged. -/
theorem MessageQueue.applyOp_config (op : MQOp) (q : MessageQueue) :
    ((MessageQueue.applyOp op q).maxSize = q.maxSize) ∧
    ((MessageQueue.applyOp op q).dropWhenFull = q.dropWhenFull) := by
  cases op with
  | enq m => exact ⟨(MessageQueue.enqueue_config q m).1,
      (MessageQueue.enqueue_config q m).2.1⟩
  | flushOp => exact ⟨rfl, rfl⟩

/-- A single `enqueue` preserves `size ≤ maxSize` when the capacity is at
least 1. -/
theorem MessageQueue.enqueue_size_le (q : MessageQueue) (m : String)
    (hC : 1 ≤ q.maxSize) (h : q.size ≤ q.maxSize) :
    (q.enqueue m).2.size ≤ q.maxSize := by
  unfold MessageQueue.enqueue
  split
  · rename_i hfull
    have hlen : q.queue.length = q.maxSize := le_antisymm h hfull
    split
    · -- dropWhenFull: queue unchanged
      simpa [MessageQueue.size] using h
    · -- drop oldest then push
      simp only [MessageQueue.size, List.length_append, List.length_tail,
        List.length_cons, List.length_nil]
      omega
  · rename_i hnotfull
    push_neg at hnotfull
    simp only [MessageQueue.size, List.length_append, List.length_cons,
      List.length_nil]
    omega

/-- Every operation preserves `size ≤ maxSize` when the capacity is at
least 1. -/
theorem MessageQueue.applyOp_size_le (op : MQOp) (q : MessageQueue)
    (hC : 1 ≤ q.maxSize) (h : q.size ≤ q.maxSize) :
    (MessageQueue.applyOp op q).size ≤ q.maxSize := by
  cases op with
  | enq m => exact MessageQueue.enqueue_size_le q m hC h
  | flushOp => simp [MessageQueue.applyOp, MessageQueue.flushQ, MessageQueue.size]

/-- C3 fails as stated: with capacity `maxSize = 0` and the drop-oldest
policy, a single `enqueue` pushes the message after the (empty) shift, so
the queue size 1 exceeds `getMaxSize() = 0`. -/
theorem MessageQueue.C3_counterexample :
    ¬ (((MessageQueue.init 0 false).enqueue "a").2.size ≤
        ((MessageQueue.init 0 false).enqueue "a").2.getMaxSize) := by
  decide

/-- C3 (amended): for every capacity `maxSize ≥ 1`, every overflow policy
and every sequence of enqueue/flush operations starting from the freshly
constructed queue, `size() ≤ getMaxSize()` holds after each operation. -/
theorem MessageQueue.size_le_getMaxSize (maxSize : Nat) (dropWhenFull : Bool)
    (ops : List MQOp) (hC : 1 ≤ maxSize) :
    (MessageQueue.runOps ops (MessageQueue.init maxSize dropWhenFull)).size ≤
      (MessageQueue.runOps ops (MessageQueue.init maxSize dropWhenFull)).getMaxSize := by
  suffices H : ∀ (l : List MQOp) (q : MessageQueue), 1 ≤ q.maxSize →
      q.size ≤ q.maxSize →
      (MessageQueue.runOps l q).size ≤ (MessageQueue.runOps l q).getMaxSize ∧
      (MessageQueue.runOps l q).maxSize = q.maxSize by
    exact (H ops (MessageQueue.init maxSize dropWhenFull) hC (by simp [MessageQueue.size, MessageQueue.init])).1
  intro l
  induction l with
  | nil =>
    intro q h1 h2
    exact ⟨h2, rfl⟩
  | cons op rest ih =>
    intro q h1 h2
    have hcfg := MessageQueue.applyOp_config op q
    have hsz := MessageQueue.applyOp_size_le op q h1 h2
    have := ih (MessageQueue.applyOp op q) (hcfg.1 ▸ h1) (hcfg.1 ▸ hsz)
    refine ⟨?_, ?_⟩
    · simpa [MessageQueue.runOps] using this.1
    · simpa [MessageQueue.runOps, hcfg.1] using this.2

/-- Witness for `MessageQueue.size_le_getMaxSize` at a concrete input. -/
theorem MessageQueue.size_le_getMaxSize_witness :
    (MessageQueue.runOps [MQOp.enq "a", MQOp.enq "b", MQOp.enq "c", MQOp.flushOp]
        (MessageQueue.init 2 false)).size ≤
      (MessageQueue.runOps [MQOp.enq "a", MQOp.enq "b", MQOp.enq "c", MQOp.flushOp]
        (MessageQueue.init 2 false)).getMaxSize :=
  MessageQueue.size_le_getMaxSize 2 false
    [MQOp.enq "a", MQOp.enq "b", MQOp.enq "c", MQOp.flushOp] (by decide)

theorem MessageQueue.enqueueAll_cons (m : String) (msgs : List String)
    (q : MessageQueue) :
    MessageQueue.enqueueAll (m :: msgs) q =
      MessageQueue.enqueueAll msgs (q.enqueue m).2 := rfl

/-- One drop-oldest `enqueue` step, stated on the fields.  Requires
capacity ≥ 1. -/
theorem MessageQueue.enqueue_dropOldest_spec (q : MessageQueue) (m : String)
    (hC : 1 ≤ q.maxSize) (hd : q.dropWhenFull = false)
    (hlen : q.queue.length ≤ q.maxSize) :
    ((q.enqueue m).2.queue =
        (q.queue ++ [m]).drop (q.queue.length + 1 - q.maxSize)) ∧
    ((q.enqueue m).2.droppedCount =
        q.droppedCount + (q.queue.length + 1 - q.maxSize)) := by
  unfold MessageQueue.enqueue
  split
  · rename_i hfull
    have hlen2 : q.queue.length = q.maxSize := le_antisymm hlen hfull
    rw [hd]
    simp only [Bool.false_eq_true, if_false]
    have hq : q.queue.length + 1 - q.maxSize = 1 := by omega
    rw [hq]
    refine ⟨?_, rfl⟩
    show q.queue.tail ++ [m] = (q.queue ++ [m]).drop 1
    rw [List.drop_append_of_le_length (by omega), List.drop_one]
  · rename_i hnotfull
    push_neg at hnotfull
    have hq : q.queue.length + 1 - q.maxSize = 0 := by omega
    rw [hq]
    exact ⟨rfl, rfl⟩

/-- Folding drop-oldest enqueues: the queue ends as the suffix of
`q.queue ++ msgs` that fits the capacity, and the dropped count grows by
the number of evicted messages. -/
theorem MessageQueue.enqueueAll_dropOldest (msgs : List String) :
    ∀ (q : MessageQueue), 1 ≤ q.maxSize → q.dropWhenFull = false →
    q.queue.length ≤ q.maxSize →
    ((MessageQueue.enqueueAll msgs q).queue =
        (q.queue ++ msgs).drop (q.queue.length + msgs.length - q.maxSize)) ∧
    ((MessageQueue.enqueueAll msgs q).droppedCount =
        q.droppedCount + (q.queue.length + msgs.length - q.maxSize)) ∧
    ((MessageQueue.enqueueAll msgs q).maxSize = q.maxSize) ∧
    ((MessageQueue.enqueueAll msgs q).dropWhenFull = false) := by
  induction msgs with
  | nil =>
    intro q hC hd hlen
    simp [MessageQueue.enqueueAll, Nat.sub_eq_zero_of_le hlen, hd]
  | cons m rest ih =>
    intro q hC hd hlen
    rw [MessageQueue.enqueueAll_cons]
    have hstep := MessageQueue.enqueue_dropOldest_spec q m hC hd hlen
    have hcfg := MessageQueue.enqueue_config q m
    have hqlen : (q.enqueue m).2.queue.length =
        q.queue.length + 1 - (q.queue.length + 1 - q.maxSize) := by
      rw [hstep.1]
      simp only [List.length_drop, List.length_append, List.length_cons,
        List.length_nil]
    have hlen2 : (q.enqueue m).2.queue.length ≤ (q.enqueue m).2.maxSize := by
      rw [hqlen, hcfg.1]
      omega
    have hrec := ih (q.enqueue m).2 (hcfg.1 ▸ hC) (hcfg.2.1.trans hd) hlen2
    have hd1 : q.queue.length + 1 - q.maxSize ≤ (q.queue ++ [m]).length := by
      simp only [List.length_append, List.length_cons, List.length_nil]
      omega
    have hL : (q.enqueue m).2.queue ++ rest =
        (q.queue ++ m :: rest).drop (q.queue.length + 1 - q.maxSize) := by
      rw [hstep.1, ← List.drop_append_of_le_length hd1, List.append_assoc,
        List.singleton_append]
    refine ⟨?_, ?_, ?_, hrec.2.2.2⟩
    · rw [hrec.1, hL, hqlen, hcfg.1, List.drop_drop]
      have harith : q.queue.length + 1 - q.maxSize +
          (q.queue.length + 1 - (q.queue.length + 1 - q.maxSize) +
            rest.length - q.maxSize) =
          q.queue.length + (m :: rest).length - q.maxSize := by
        simp only [List.length_cons]
        omega
      rw [harith]
    · rw [hrec.2.1, hstep.2, hqlen, hcfg.1]
      simp only [List.length_cons]
      omega
    · rw [hrec.2.2.1, hcfg.1]

/-- C4 fails as stated at capacity 0: one enqueue into an empty
drop-oldest queue of `maxSize = 0` leaves size 1, not `maxSize = 0`. -/
theorem MessageQueue.C4_counterexample :
    ¬ ((MessageQueue.enqueueAll ["a"] (MessageQueue.init 0 false)).size =
        (MessageQueue.enqueueAll ["a"] (MessageQueue.init 0 false)).getMaxSize) := by
  decide

/-- C4 (amended): for capacity `C ≥ 1` and `N > C` messages enqueued into
an initially empty drop-oldest queue with no intervening dequeue, the final
size is `C`, the dropped count is `N - C`, the surviving elements are the
last `C` accepted messages in FIFO order, and the head is the
`(N - C + 1)`-th accepted message. -/
theorem MessageQueue.enqueueAll_overflow (C N : Nat) (msgs : List String)
    (hC : 1 ≤ C) (hlen : msgs.length = N) (hN : C < N) :
    ((MessageQueue.enqueueAll msgs (MessageQueue.init C false)).size = C) ∧
    ((MessageQueue.enqueueAll msgs (MessageQueue.init C false)).getDroppedCount = N - C) ∧
    ((MessageQueue.enqueueAll msgs (MessageQueue.init C false)).queue =
        msgs.drop (N - C)) ∧
    ((MessageQueue.enqueueAll msgs (MessageQueue.init C false)).queue.head? =
        msgs.get? (N - C)) := by
  have h := MessageQueue.enqueueAll_dropOldest msgs (MessageQueue.init C false)
    (by simpa [MessageQueue.init] using hC) (by simp [MessageQueue.init])
    (by simp [MessageQueue.init])
  simp only [MessageQueue.init] at h
  have hq : (MessageQueue.enqueueAll msgs (MessageQueue.init C false)).queue =
      msgs.drop (N - C) := by
    have := h.1
    simpa [MessageQueue.init, hlen] using this
  refine ⟨?_, ?_, hq, ?_⟩
  · rw [MessageQueue.size, hq]
    simp only [List.length_drop, hlen]
    omega
  · have := h.2.1
    simpa [MessageQueue.getDroppedCount, MessageQueue.init, hlen] using this
  · rw [hq]
    cases hlt : msgs.get? (N - C) with
    | none =>
      rw [List.get?_eq_none] at hlt
      have : msgs.length ≤ N - C := hlt
      omega
    | some a =>
      have hdrop : N - C < msgs.length := by
        by_contra hcon
        push_neg at hcon
        rw [List.get?_eq_none.mpr hcon] at hlt
        exact Option.noConfusion hlt
      rw [List.head?_eq_getElem?, List.getElem?_drop]
      simpa using hlt

/-- Witness for `MessageQueue.enqueueAll_overflow`: capacity 2, five
messages. -/
theorem MessageQueue.enqueueAll_overflow_witness :
    ((MessageQueue.enqueueAll ["m1", "m2", "m3", "m4", "m5"]
        (MessageQueue.init 2 false)).size = 2) ∧
    ((MessageQueue.enqueueAll ["m1", "m2", "m3", "m4", "m5"]
        (MessageQueue.init 2 false)).getDroppedCount = 3) ∧
    ((MessageQueue.enqueueAll ["m1", "m2", "m3", "m4", "m5"]
        (MessageQueue.init 2 false)).queue = ["m4", "m5"]) ∧
    ((MessageQueue.enqueueAll ["m1", "m2", "m3", "m4", "m5"]
        (MessageQueue.init 2 false)).queue.head? = some "m4") := by
  have h := MessageQueue.enqueueAll_overflow 2 5 ["m1", "m2", "m3", "m4", "m5"]
    (by decide) (by decide) (by decide)
  simpa using h

/-- `doResolve` never shrinks or grows the flush table. -/
theorem FlushManager.doResolve_length (i : Nat) (s : FlushManager) :
    (FlushManager.doResolve i s).flushes.length = s.flushes.length := by
  unfold FlushManager.doResolve
  split
  · rfl
  · split
    · rfl
    · simp [List.length_set]

/-- `doResolve i` leaves every other flush record unchanged. -/
theorem FlushManager.doResolve_get_ne (i j : Nat) (s : FlushManager)
    (h : j ≠ i) :
    (FlushManager.doResolve i s).flushes.get? j = s.flushes.get? j := by
  unfold FlushManager.doResolve
  split
  · rfl
  · split
    · rfl
    · simp [List.get?_eq_getElem?, List.getElem?_set_ne (Ne.symm h)]

/-- `doResolve i` leaves membership of every other id in `drainResolvers`
unchanged. -/
theorem FlushManager.doResolve_mem_ne (i j : Nat) (s : FlushManager)
    (h : j ≠ i) :
    (j ∈ (FlushManager.doResolve i s).drainResolvers) ↔
      j ∈ s.drainResolvers := by
  unfold FlushManager.doResolve
  split
  · exact Iff.rfl
  · split
    · exact Iff.rfl
    · exact List.mem_erase_of_ne h

/-- A resolver that has already resolved stays resolved under any
`doResolve`. -/
theorem FlushManager.doResolve_resolved_mono (i j : Nat) (s : FlushManager)
    (h : (s.flushes.get? j).map FlushRec.resolved = some true) :
    ((FlushManager.doResolve i s).flushes.get? j).map FlushRec.resolved =
      some true := by
  by_cases hij : j = i
  · subst hij
    unfold FlushManager.doResolve
    cases hr : s.flushes.get? j with
    | none => simpa [hr] using h
    | some r =>
      rw [hr] at h
      have hres : r.resolved = true := by simpa using h
      dsimp only
      rw [if_pos hres, hr]
      simp [hres]
  · rw [FlushManager.doResolve_get_ne i j s hij]
    exact h

/-- After `doResolve i` on a valid id, flush `i` is resolved. -/
theorem FlushManager.doResolve_resolves (i : Nat) (s : FlushManager)
    (hval : i < s.flushes.length) :
    ((FlushManager.doResolve i s).flushes.get? i).map FlushRec.resolved =
      some true := by
  unfold FlushManager.doResolve
  cases hr : s.flushes.get? i with
  | none =>
    exfalso
    rw [List.get?_eq_getElem?, List.getElem?_eq_none_iff] at hr
    omega
  | some r =>
    by_cases hres : r.resolved = true
    · dsimp only
      rw [if_pos hres, hr]
      simp [hres]
    · dsimp only
      rw [if_neg hres]
      simp [List.get?_eq_getElem?, List.getElem?_set_self, hval]

/-- `doResolve` keeps an empty resolver registry empty. -/
theorem FlushManager.doResolve_empty (i : Nat) (s : FlushManager)
    (h : s.drainResolvers = []) :
    (FlushManager.doResolve i s).drainResolvers = [] := by
  unfold FlushManager.doResolve
  split
  · exact h
  · split
    · exact h
    · simp [h]

/-- Folding `doResolve` over a list of valid ids resolves every one of
them, leaves other records unchanged, preserves the table length and keeps
an empty registry empty. -/
theorem FlushManager.foldl_doResolve_spec (rs : List Nat) :
    ∀ (s : FlushManager),
    ((rs.foldl (fun st i => FlushManager.doResolve i st) s).flushes.length =
      s.flushes.length) ∧
    (s.drainResolvers = [] →
      (rs.foldl (fun st i => FlushManager.doResolve i st) s).drainResolvers = []) ∧
    (∀ j, j < s.flushes.length → j ∈ rs →
      (((rs.foldl (fun st i => FlushManager.doResolve i st) s).flushes.get? j).map
          FlushRec.resolved = some true)) ∧
    (∀ j, j ∉ rs →
      ((rs.foldl (fun st i => FlushManager.doResolve i st) s).flushes.get? j =
        s.flushes.get? j)) := by
  induction rs with
  | nil =>
    intro s
    exact ⟨rfl, fun h => h, fun j _ hj => absurd hj (List.not_mem_nil j),
      fun j _ => rfl⟩
  | cons i rest ih =>
    intro s
    have hstep := ih (FlushManager.doResolve i s)
    simp only [List.foldl_cons]
    refine ⟨?_, ?_, ?_, ?_⟩
    · rw [hstep.1, FlushManager.doResolve_length]
    · intro h
      exact hstep.2.1 (FlushManager.doResolve_empty i s h)
    · intro j hj hmem
      have hj2 : j < (FlushManager.doResolve i s).flushes.length := by
        rw [FlushManager.doResolve_length]; exact hj
      rcases List.mem_cons.mp hmem with hji | hjr
      · subst hji
        by_cases hrest : j ∈ rest
        · exact hstep.2.2.1 j hj2 hrest
        · rw [hstep.2.2.2 j hrest]
          exact FlushManager.doResolve_resolves j s hj
      · exact hstep.2.2.1 j hj2 hjr
    · intro j hj
      have hji : j ≠ i := fun h => hj (h ▸ List.mem_cons_self i rest)
      have hjr : j ∉ rest := fun h => hj (List.mem_cons_of_mem i h)
      rw [hstep.2.2.2 j hjr, FlushManager.doResolve_get_ne i j s hji]

/-- `doResolve` is a no-op on an already-resolved flush: a resolver can
never be invoked twice. -/
theorem FlushManager.doResolve_noop (i : Nat) (s : FlushManager)
    (h : (s.flushes.get? i).map FlushRec.resolved = some true) :
    FlushManager.doResolve i s = s := by
  unfold FlushManager.doResolve
  cases hr : s.flushes.get? i with
  | none => rfl
  | some r =>
    have hres : r.resolved = true := by rw [hr] at h; simpa using h
    dsimp only
    rw [if_pos hres]

/-- C1: concurrent flushes are independent.  Firing the timer of flush `i`
unregisters exactly its own resolver, which is then resolved and can never
be invoked again, while every other flush's registration and record are
untouched; and whenever the drain condition `pendingWrites = 0 ∧ qsize = 0`
holds, `checkDrain` resolves every currently registered resolver together
and empties the registry. -/
theorem FlushManager.flush_isolation (s : FlushManager) (i : Nat) (r : FlushRec)
    (hval : ∀ j ∈ s.drainResolvers, j < s.flushes.length)
    (hnd : s.drainResolvers.Nodup)
    (hi : i ∈ s.drainResolvers)
    (hr : s.flushes.get? i = some r) (hres : r.resolved = false)
    (htimer : r.timerActive = true) :
    (i ∉ (FlushManager.timerFire i s).drainResolvers) ∧
    ((FlushManager.timerFire i s).flushes.get? i =
      some { resolved := true, timerActive := false }) ∧
    (FlushManager.doResolve i (FlushManager.timerFire i s) =
      FlushManager.timerFire i s) ∧
    (∀ j, j ≠ i →
      ((j ∈ (FlushManager.timerFire i s).drainResolvers) ↔
        j ∈ s.drainResolvers) ∧
      ((FlushManager.timerFire i s).flushes.get? j = s.flushes.get? j)) ∧
    (∀ qsize, s.pendingWrites = 0 → qsize = 0 →
      ((FlushManager.checkDrain qsize s).drainResolvers = []) ∧
      (∀ j ∈ s.drainResolvers,
        ((FlushManager.checkDrain qsize s).flushes.get? j).map
          FlushRec.resolved = some true)) := by
  have htf : FlushManager.timerFire i s = FlushManager.doResolve i s := by
    unfold FlushManager.timerFire
    rw [hr]
    dsimp only
    rw [if_pos htimer]
  have hdr : FlushManager.doResolve i s =
      { s with
        flushCount := s.flushCount - 1,
        drainResolvers := s.drainResolvers.erase i,
        flushes := s.flushes.set i { resolved := true, timerActive := false } } := by
    unfold FlushManager.doResolve
    rw [hr]
    dsimp only
    rw [if_neg (by simp [hres])]
  have hvali : i < s.flushes.length := hval i hi
  have hgeti : (FlushManager.timerFire i s).flushes.get? i =
      some { resolved := true, timerActive := false } := by
    rw [htf, hdr]
    simp [List.get?_eq_getElem?, List.getElem?_set_self, hvali]
  refine ⟨?_, hgeti, ?_, ?_, ?_⟩
  · rw [htf, hdr]
    exact fun hmem => ((List.Nodup.mem_erase_iff hnd).mp hmem).1 rfl
  · exact FlushManager.doResolve_noop i (FlushManager.timerFire i s)
      (by rw [hgeti]; rfl)
  · intro j hj
    rw [htf]
    exact ⟨FlushManager.doResolve_mem_ne i j s hj,
      FlushManager.doResolve_get_ne i j s hj⟩
  · intro qsize hp hq
    unfold FlushManager.checkDrain
    rw [if_pos ⟨hp, hq⟩]
    have hspec := FlushManager.foldl_doResolve_spec s.drainResolvers
      { s with drainResolvers := [] }
    refine ⟨hspec.2.1 rfl, ?_⟩
    intro j hjmem
    exact hspec.2.2.1 j (hval j hjmem) hjmem

/-- Witness for `FlushManager.flush_isolation` on a concrete state with two
outstanding flushes, firing the first flush's timer. -/
theorem FlushManager.flush_isolation_witness :
    (0 ∉ (FlushManager.timerFire 0 FlushManager.sampleTwoFlushes).drainResolvers) ∧
    ((FlushManager.timerFire 0 FlushManager.sampleTwoFlushes).flushes.get? 0 =
      some { resolved := true, timerActive := false }) ∧
    (FlushManager.doResolve 0 (FlushManager.timerFire 0 FlushManager.sampleTwoFlushes) =
      FlushManager.timerFire 0 FlushManager.sampleTwoFlushes) ∧
    (∀ j, j ≠ 0 →
      ((j ∈ (FlushManager.timerFire 0 FlushManager.sampleTwoFlushes).drainResolvers) ↔
        j ∈ FlushManager.sampleTwoFlushes.drainResolvers) ∧
      ((FlushManager.timerFire 0 FlushManager.sampleTwoFlushes).flushes.get? j =
        FlushManager.sampleTwoFlushes.flushes.get? j)) ∧
    (∀ qsize, FlushManager.sampleTwoFlushes.pendingWrites = 0 → qsize = 0 →
      ((FlushManager.checkDrain qsize FlushManager.sampleTwoFlushes).drainResolvers = []) ∧
      (∀ j ∈ FlushManager.sampleTwoFlushes.drainResolvers,
        ((FlushManager.checkDrain qsize FlushManager.sampleTwoFlushes).flushes.get? j).map
          FlushRec.resolved = some true)) :=
  FlushManager.flush_isolation FlushManager.sampleTwoFlushes 0
    { resolved := false, timerActive := true }
    (by decide) (by decide) (by decide) (by decide) (by decide) (by decide)

/-- `writeToSocket` appends to the write log and leaves the queue and the
connection flag unchanged. -/
theorem Transport.writeToSocket_basic (m : String) (s : Transport) :
    ((Transport.writeToSocket m s).written = s.written ++ [m]) ∧
    ((Transport.writeToSocket m s).mq = s.mq) ∧
    ((Transport.writeToSocket m s).connected = s.connected) := by
  unfold Transport.writeToSocket
  dsimp only
  split <;> exact ⟨rfl, rfl, rfl⟩

/-- `writeAll` never touches the queue. -/
theorem Transport.writeAll_mq (msgs : List String) : ∀ (s : Transport),
    (Transport.writeAll msgs s).mq = s.mq := by
  induction msgs with
  | nil => intro s; rfl
  | cons m rest ih =>
    intro s
    show (Transport.writeAll rest
      (if s.connected = true then Transport.writeToSocket m s else s)).mq = s.mq
    by_cases h : s.connected = true
    · rw [if_pos h]
      exact (ih _).trans (Transport.writeToSocket_basic m s).2.1
    · rw [if_neg h]
      exact ih s

/-- On a connected transport, `writeAll` writes all messages in order. -/
theorem Transport.writeAll_spec (msgs : List String) : ∀ (s : Transport),
    s.connected = true →
    ((Transport.writeAll msgs s).written = s.written ++ msgs) ∧
    ((Transport.writeAll msgs s).mq = s.mq) ∧
    ((Transport.writeAll msgs s).connected = true) := by
  induction msgs with
  | nil => intro s h; exact ⟨(List.append_nil _).symm, rfl, h⟩
  | cons m rest ih =>
    intro s h
    have hb := Transport.writeToSocket_basic m s
    have hstep : Transport.writeAll (m :: rest) s =
        Transport.writeAll rest (Transport.writeToSocket m s) := by
      show (Transport.writeAll rest
        (if s.connected = true then Transport.writeToSocket m s else s)) = _
      rw [if_pos h]
    have hrec := ih (Transport.writeToSocket m s) (hb.2.2.trans h)
    refine ⟨?_, ?_, ?_⟩
    · rw [hstep, hrec.1, hb.1, List.append_assoc, List.singleton_append]
    · rw [hstep, hrec.2.1, hb.2.1]
    · rw [hstep]; exact hrec.2.2

/-- An `enqueue` that did not increment the dropped count appended the
message to the tail of the queue. -/
theorem MessageQueue.enqueue_nodrop (q : MessageQueue) (m : String)
    (h : (q.enqueue m).2.droppedCount = q.droppedCount) :
    (q.enqueue m).2.queue = q.queue ++ [m] := by
  by_cases hfull : q.queue.length ≥ q.maxSize
  · exfalso
    unfold MessageQueue.enqueue at h
    rw [if_pos hfull] at h
    by_cases hdw : q.dropWhenFull = true
    · rw [if_pos hdw] at h
      dsimp only at h
      omega
    · rw [if_neg hdw] at h
      dsimp only at h
      omega
  · unfold MessageQueue.enqueue
    rw [if_neg hfull]

/-- Every step can only increase the dropped count. -/
theorem Transport.step_dropped_mono (e : TEvent) (s : Transport) :
    s.mq.droppedCount ≤ (Transport.step e s).mq.droppedCount := by
  cases e with
  | accept m =>
    unfold Transport.step
    dsimp only
    by_cases hc : s.connected = true
    · rw [if_pos hc, (Transport.writeToSocket_basic m s).2.1]
    · rw [if_neg hc]
      dsimp only
      rcases (MessageQueue.enqueue_config s.mq m).2.2 with h | h <;> omega
  | connectOk =>
    unfold Transport.step
    dsimp only
    rw [Transport.writeAll_mq]
    exact le_refl _
  | socketDown => exact le_refl _
  | completeTracked =>
    unfold Transport.step
    dsimp only
    split <;> exact le_refl _
  | completeUntracked =>
    unfold Transport.step
    dsimp only
    split <;> exact le_refl _
  | flushStart => exact le_refl _

/-- A whole run can only increase the dropped count. -/
theorem Transport.run_dropped_mono (evs : List TEvent) : ∀ (s : Transport),
    s.mq.droppedCount ≤ (Transport.run evs s).mq.droppedCount := by
  induction evs with
  | nil => intro s; exact le_refl _
  | cons e rest ih =>
    intro s
    exact le_trans (Transport.step_dropped_mono e s) (ih (Transport.step e s))

/-- One drop-free step preserves `written ++ queue = accepted so far` and
the invariant that a connected transport has an empty queue. -/
theorem Transport.step_order (e : TEvent) (s : Transport)
    (hnd : (Transport.step e s).mq.droppedCount = s.mq.droppedCount)
    (hinv : s.connected = true → s.mq.queue = []) :
    ((Transport.step e s).written ++ (Transport.step e s).mq.queue =
      s.written ++ s.mq.queue ++ TEvent.acceptedOf e) ∧
    ((Transport.step e s).connected = true →
      (Transport.step e s).mq.queue = []) := by
  cases e with
  | accept m =>
    by_cases hc : s.connected = true
    · have hred : Transport.step (TEvent.accept m) s = Transport.writeToSocket m s := by
        unfold Transport.step
        dsimp only
        rw [if_pos hc]
      have hb := Transport.writeToSocket_basic m s
      have hq : s.mq.queue = [] := hinv hc
      rw [hred]
      refine ⟨?_, fun _ => ?_⟩
      · rw [hb.1, hb.2.1, hq]
        simp [TEvent.acceptedOf]
      · rw [hb.2.1]; exact hq
    · have hred : Transport.step (TEvent.accept m) s =
          { s with mq := (s.mq.enqueue m).2 } := by
        unfold Transport.step
        dsimp only
        rw [if_neg hc]
      rw [hred] at hnd ⊢
      have hqe : (s.mq.enqueue m).2.queue = s.mq.queue ++ [m] :=
        MessageQueue.enqueue_nodrop s.mq m hnd
      refine ⟨?_, fun hcc => absurd hcc hc⟩
      show s.written ++ (s.mq.enqueue m).2.queue = _
      rw [hqe, TEvent.acceptedOf, List.append_assoc]
  | connectOk =>
    have hred : Transport.step TEvent.connectOk s =
        Transport.writeAll s.mq.queue
          { s with connected := true, mq := { s.mq with queue := [] } } := rfl
    have hw := Transport.writeAll_spec s.mq.queue
      { s with connected := true, mq := { s.mq with queue := [] } } rfl
    rw [hred]
    refine ⟨?_, fun _ => ?_⟩
    · rw [hw.1, hw.2.1]
      simp [TEvent.acceptedOf]
    · rw [hw.2.1]
  | socketDown =>
    exact ⟨by simp [Transport.step, TEvent.acceptedOf],
      fun hcc => by simp [Transport.step] at hcc⟩
  | completeTracked =>
    unfold Transport.step
    dsimp only
    split <;> exact ⟨by simp [TEvent.acceptedOf], hinv⟩
  | completeUntracked =>
    unfold Transport.step
    dsimp only
    split <;> exact ⟨by simp [TEvent.acceptedOf], hinv⟩
  | flushStart =>
    exact ⟨by simp [Transport.step, TEvent.acceptedOf], hinv⟩

/-- A drop-free run keeps `written ++ queue` equal to the previous log plus
everything accepted during the run. -/
theorem Transport.run_order (evs : List TEvent) : ∀ (s : Transport),
    (Transport.run evs s).mq.droppedCount = s.mq.droppedCount →
    (s.connected = true → s.mq.queue = []) →
    ((Transport.run evs s).written ++ (Transport.run evs s).mq.queue =
      s.written ++ s.mq.queue ++ acceptedList evs) ∧
    ((Transport.run evs s).connected = true →
      (Transport.run evs s).mq.queue = []) := by
  induction evs with
  | nil =>
    intro s _ hinv
    exact ⟨by simp [acceptedList, Transport.run], hinv⟩
  | cons e rest ih =>
    intro s hnd hinv
    have hrun : Transport.run (e :: rest) s =
        Transport.run rest (Transport.step e s) := rfl
    have h1 : s.mq.droppedCount ≤ (Transport.step e s).mq.droppedCount :=
      Transport.step_dropped_mono e s
    have h2 : (Transport.step e s).mq.droppedCount ≤
        (Transport.run rest (Transport.step e s)).mq.droppedCount :=
      Transport.run_dropped_mono rest (Transport.step e s)
    rw [hrun] at hnd
    have hstepnd : (Transport.step e s).mq.droppedCount = s.mq.droppedCount := by
      omega
    have hstep := Transport.step_order e s hstepnd hinv
    have hrec := ih (Transport.step e s) (by omega) hstep.2
    refine ⟨?_, ?_⟩
    · rw [hrun, hrec.1, hstep.1]
      simp [acceptedList, List.append_assoc]
    · rw [hrun]; exact hrec.2

/-- C2: for every event sequence during which no overflow-drop occurs, the
messages written to the socket followed by the messages still queued are
exactly the accepted messages in acceptance order.  In particular the
socket write log is always a prefix of the acceptance order, and after a
`socketDown`/`connectOk` reconnection the previously queued messages are
written before anything accepted later: reconnection never reorders. -/
theorem Transport.delivery_order (maxQueueSize : Nat) (dropWhenFull : Bool)
    (evs : List TEvent)
    (h : (Transport.run evs
        (Transport.init maxQueueSize dropWhenFull)).mq.getDroppedCount = 0) :
    (Transport.run evs (Transport.init maxQueueSize dropWhenFull)).written ++
      (Transport.run evs (Transport.init maxQueueSize dropWhenFull)).mq.queue =
      acceptedList evs := by
  have hmain := Transport.run_order evs (Transport.init maxQueueSize dropWhenFull)
    (by
      simp only [MessageQueue.getDroppedCount] at h
      simpa [Transport.init, MessageQueue.init] using h)
    (by intro hc; exact absurd hc (by simp [Transport.init]))
  simpa [Transport.init, MessageQueue.init] using hmain.1

/-- Witness for `Transport.delivery_order`: two messages accepted while
disconnected, a reconnect cycle, and further messages. -/
theorem Transport.delivery_order_witness :
    (Transport.run
        [TEvent.accept "a", TEvent.accept "b", TEvent.connectOk,
          TEvent.socketDown, TEvent.accept "c", TEvent.connectOk,
          TEvent.accept "d"]
        (Transport.init 10 false)).written ++
      (Transport.run
        [TEvent.accept "a", TEvent.accept "b", TEvent.connectOk,
          TEvent.socketDown, TEvent.accept "c", TEvent.connectOk,
          TEvent.accept "d"]
        (Transport.init 10 false)).mq.queue =
      acceptedList
        [TEvent.accept "a", TEvent.accept "b", TEvent.connectOk,
          TEvent.socketDown, TEvent.accept "c", TEvent.connectOk,
          TEvent.accept "d"] :=
  Transport.delivery_order 10 false
    [TEvent.accept "a", TEvent.accept "b", TEvent.connectOk,
      TEvent.socketDown, TEvent.accept "c", TEvent.connectOk,
      TEvent.accept "d"] (by decide)

/-- `doResolve` never changes the pending-write counter. -/
theorem FlushManager.doResolve_pendingWrites (i : Nat) (s : FlushManager) :
    (FlushManager.doResolve i s).pendingWrites = s.pendingWrites := by
  unfold FlushManager.doResolve
  split
  · rfl
  · split <;> rfl

/-- Folded `doResolve` never changes the pending-write counter. -/
theorem FlushManager.foldl_doResolve_pendingWrites (rs : List Nat) :
    ∀ (s : FlushManager),
    (rs.foldl (fun st i => FlushManager.doResolve i st) s).pendingWrites =
      s.pendingWrites := by
  induction rs with
  | nil => intro s; rfl
  | cons i rest ih =>
    intro s
    exact (ih (FlushManager.doResolve i s)).trans
      (FlushManager.doResolve_pendingWrites i s)

/-- `checkDrain` never changes the pending-write counter. -/
theorem FlushManager.checkDrain_pendingWrites (qsize : Nat) (s : FlushManager) :
    (FlushManager.checkDrain qsize s).pendingWrites = s.pendingWrites := by
  unfold FlushManager.checkDrain
  split
  · exact FlushManager.foldl_doResolve_pendingWrites _ _
  · rfl

/-- `writeComplete` decrements the pending-write counter by exactly one. -/
theorem FlushManager.writeComplete_pendingWrites (qsize : Nat) (s : FlushManager) :
    (FlushManager.writeComplete qsize s).pendingWrites = s.pendingWrites - 1 :=
  FlushManager.checkDrain_pendingWrites qsize _

/-- `flush()` itself never changes the pending-write counter. -/
theorem FlushManager.flushCall_pendingWrites (qsize : Nat) (s : FlushManager) :
    ((FlushManager.flushCall qsize s).2).pendingWrites = s.pendingWrites := by
  unfold FlushManager.flushCall
  dsimp only
  split
  · rfl
  · exact FlushManager.checkDrain_pendingWrites _ _

/-- `trackWrite` either tracks (incrementing the counter) or does nothing. -/
theorem FlushManager.trackWrite_spec (s : FlushManager) :
    (s.trackWrite.1 = true ∧
      s.trackWrite.2.pendingWrites = s.pendingWrites + 1) ∨
    (s.trackWrite.1 = false ∧ s.trackWrite.2 = s) := by
  unfold FlushManager.trackWrite
  split
  · exact Or.inl ⟨rfl, rfl⟩
  · exact Or.inr ⟨rfl, rfl⟩

/-- `writeToSocket` keeps `pendingWrites` equal to the number of tracked
in-flight writes. -/
theorem Transport.writeToSocket_pending (m : String) (s : Transport)
    (h : s.fm.pendingWrites = (s.trackedInflight : Int)) :
    (Transport.writeToSocket m s).fm.pendingWrites =
      ((Transport.writeToSocket m s).trackedInflight : Int) := by
  unfold Transport.writeToSocket
  dsimp only
  rcases FlushManager.trackWrite_spec s.fm with ⟨ht, hp⟩ | ⟨ht, hp⟩
  · rw [if_pos ht]
    dsimp only
    rw [hp, h]
    push_cast
    ring
  · rw [if_neg (by rw [ht]; exact Bool.false_ne_true)]
    dsimp only
    rw [hp]
    exact h

/-- `writeAll` keeps `pendingWrites` equal to the number of tracked
in-flight writes. -/
theorem Transport.writeAll_pending (msgs : List String) : ∀ (s : Transport),
    s.fm.pendingWrites = (s.trackedInflight : Int) →
    (Transport.writeAll msgs s).fm.pendingWrites =
      ((Transport.writeAll msgs s).trackedInflight : Int) := by
  induction msgs with
  | nil => intro s h; exact h
  | cons m rest ih =>
    intro s h
    have hcons : Transport.writeAll (m :: rest) s =
        Transport.writeAll rest
          (if s.connected = true then Transport.writeToSocket m s else s) := rfl
    rw [hcons]
    by_cases hc : s.connected = true
    · rw [if_pos hc]
      exact ih _ (Transport.writeToSocket_pending m s h)
    · rw [if_neg hc]
      exact ih s h

/-- Every step keeps `pendingWrites` equal to the number of tracked
in-flight writes. -/
theorem Transport.step_pending (e : TEvent) (s : Transport)
    (h : s.fm.pendingWrites = (s.trackedInflight : Int)) :
    (Transport.step e s).fm.pendingWrites =
      ((Transport.step e s).trackedInflight : Int) := by
  cases e with
  | accept m =>
    unfold Transport.step
    dsimp only
    by_cases hc : s.connected = true
    · rw [if_pos hc]
      exact Transport.writeToSocket_pending m s h
    · rw [if_neg hc]
      exact h
  | connectOk =>
    unfold Transport.step
    dsimp only
    exact Transport.writeAll_pending _ _ h
  | socketDown => exact h
  | completeTracked =>
    unfold Transport.step
    dsimp only
    split
    · rename_i htr
      dsimp only
      rw [FlushManager.writeComplete_pendingWrites, h]
      push_cast [Nat.cast_sub (by omega : 1 ≤ s.trackedInflight)]
      ring
    · exact h
  | completeUntracked =>
    unfold Transport.step
    dsimp only
    split
    · exact h
    · exact h
  | flushStart =>
    unfold Transport.step
    dsimp only
    rw [FlushManager.flushCall_pendingWrites]
    exact h

/-- A whole run keeps `pendingWrites` equal to the number of tracked
in-flight writes. -/
theorem Transport.run_pending (evs : List TEvent) : ∀ (s : Transport),
    s.fm.pendingWrites = (s.trackedInflight : Int) →
    (Transport.run evs s).fm.pendingWrites =
      ((Transport.run evs s).trackedInflight : Int) := by
  induction evs with
  | nil => intro s h; exact h
  | cons e rest ih =>
    intro s h
    exact ih (Transport.step e s) (Transport.step_pending e s h)

/-- C5 fails as stated: a write issued while no flush was outstanding is
untracked, so `getPendingWriteCount()` misses it while it is still in
flight — the count undercounts the outstanding work. -/
theorem Transport.C5_counterexample :
    Transport.getPendingWriteCount
        (Transport.run [TEvent.connectOk, TEvent.accept "m"]
          (Transport.init 1000 false)) <
      Transport.outstandingWork
        (Transport.run [TEvent.connectOk, TEvent.accept "m"]
          (Transport.init 1000 false)) := by
  decide

/-- C5 (amended): in every reachable transport state,
`getPendingWriteCount()` equals `pendingWrites + queueSize()`; it counts
every tracked in-flight write (those issued while a flush was outstanding)
plus every queued message, and undercounts the outstanding work by exactly
the writes that were issued while no flush was outstanding. -/
theorem Transport.pendingWriteCount_spec (maxQueueSize : Nat)
    (dropWhenFull : Bool) (evs : List TEvent) :
    (Transport.getPendingWriteCount
        (Transport.run evs (Transport.init maxQueueSize dropWhenFull)) =
      (Transport.run evs (Transport.init maxQueueSize dropWhenFull)).fm.pendingWrites +
        (Transport.run evs (Transport.init maxQueueSize dropWhenFull)).mq.size) ∧
    (Transport.getPendingWriteCount
        (Transport.run evs (Transport.init maxQueueSize dropWhenFull)) =
      ((Transport.run evs (Transport.init maxQueueSize dropWhenFull)).trackedInflight : Int) +
        (Transport.run evs (Transport.init maxQueueSize dropWhenFull)).mq.size) ∧
    (Transport.outstandingWork
        (Transport.run evs (Transport.init maxQueueSize dropWhenFull)) =
      Transport.getPendingWriteCount
          (Transport.run evs (Transport.init maxQueueSize dropWhenFull)) +
        ((Transport.run evs (Transport.init maxQueueSize dropWhenFull)).untrackedInflight : Int)) := by
  have hinv := Transport.run_pending evs (Transport.init maxQueueSize dropWhenFull) rfl
  refine ⟨rfl, ?_, ?_⟩
  · unfold Transport.getPendingWriteCount FlushManager.getPendingWriteCount
    rw [hinv]
  · unfold Transport.outstandingWork Transport.getPendingWriteCount
      FlushManager.getPendingWriteCount
    rw [hinv]
    ring

/-- C8 fails as stated: `!pinoLevel` treats the producer level 0 as
missing, so level 0 maps to bucket 6 while the higher level 10 maps to the
less urgent bucket 7 — the mapping is not monotone at 0. -/
theorem mapPinoLevelToGelf_not_monotone :
    ((0 : Int) ≤ 10) ∧
    ¬ (mapPinoLevelToGelf (some 10) ≤ mapPinoLevelToGelf (some 0)) := by
  decide

/-- C8 (amended): on nonzero producer levels the mapping is a monotone
bucket mapping (destination bucket numbers decrease, i.e. urgency
increases, as the producer level increases), the highest levels map to the
highest-urgency bucket 2 and the lowest to the lowest-urgency bucket 7,
and a missing level — or level 0, which `!pinoLevel` conflates with
missing — maps to the informational bucket 6. -/
theorem mapPinoLevelToGelf_monotone (a b : Int) (ha : a ≠ 0) (_hb : b ≠ 0)
    (hab : a ≤ b) :
    (mapPinoLevelToGelf (some b) ≤ mapPinoLevelToGelf (some a)) ∧
    (mapPinoLevelToGelf none = 6) ∧
    (mapPinoLevelToGelf (some 0) = 6) ∧
    (∀ l : Int, l ≥ 60 → mapPinoLevelToGelf (some l) = 2) ∧
    (∀ l : Int, l ≠ 0 → l < 30 → mapPinoLevelToGelf (some l) = 7) := by
  refine ⟨?_, rfl, rfl, ?_, ?_⟩
  · unfold mapPinoLevelToGelf
    dsimp only
    split_ifs <;> omega
  · intro l hl
    unfold mapPinoLevelToGelf
    dsimp only
    split_ifs <;> omega
  · intro l hl0 hl30
    unfold mapPinoLevelToGelf
    dsimp only
    split_ifs <;> omega

/-- Witness for `mapPinoLevelToGelf_monotone` at levels 10 and 60. -/
theorem mapPinoLevelToGelf_monotone_witness :
    (mapPinoLevelToGelf (some 60) ≤ mapPinoLevelToGelf (some 10)) ∧
    (mapPinoLevelToGelf none = 6) ∧
    (mapPinoLevelToGelf (some 0) = 6) ∧
    (∀ l : Int, l ≥ 60 → mapPinoLevelToGelf (some l) = 2) ∧
    (∀ l : Int, l ≠ 0 → l < 30 → mapPinoLevelToGelf (some l) = 7) :=
  mapPinoLevelToGelf_monotone 10 60 (by decide) (by decide) (by decide)

/-! ### Serialization succeeds on serializable values -/

mutual
theorem jsonStringify_isSome (v : JsVal) (h : serializableV v = true) :
    (jsonStringify v).isSome = true := by
  cases v with
  | vobj fs =>
    have hf := jsonStringifyFields_isSome fs (by simpa [serializableV] using h)
    rw [jsonStringify]
    cases hs : jsonStringifyFields fs with
    | none => rw [hs] at hf; simp at hf
    | some parts => simp [Option.bind, hs]
  | varr xs =>
    have hi := jsonStringifyItems_isSome xs (by simpa [serializableV] using h)
    rw [jsonStringify]
    cases hs : jsonStringifyItems xs with
    | none => rw [hs] at hi; simp at hi
    | some parts => simp [Option.bind, hs]
  | vbig n => simp [serializableV] at h
  | vstr s => simp [jsonStringify]
  | vnum n => simp [jsonStringify]
  | vbool b => simp [jsonStringify]
  | vnull => simp [jsonStringify]
  | vundef => simp [jsonStringify]
theorem jsonStringifyFields_isSome (fs : JsFields)
    (h : serializableF fs = true) :
    (jsonStringifyFields fs).isSome = true := by
  cases fs with
  | fnil => simp [jsonStringifyFields]
  | fcons k v rest =>
    simp only [serializableF, Bool.and_eq_true] at h
    have h1 := jsonStringify_isSome v h.1
    have h2 := jsonStringifyFields_isSome rest h.2
    cases v
    case vundef => rw [jsonStringifyFields]; exact h2
    all_goals
      obtain ⟨sv, hv2⟩ := Option.isSome_iff_exists.mp h1
    all_goals
      obtain ⟨srest, hr⟩ := Option.isSome_iff_exists.mp h2
    all_goals
      simp [jsonStringifyFields, Option.bind, hv2, hr]
theorem jsonStringifyItems_isSome (xs : JsItems)
    (h : serializableI xs = true) :
    (jsonStringifyItems xs).isSome = true := by
  cases xs with
  | inil => simp [jsonStringifyItems]
  | icons v rest =>
    simp only [serializableI, Bool.and_eq_true] at h
    have h1 := jsonStringify_isSome v h.1
    have h2 := jsonStringifyItems_isSome rest h.2
    rw [jsonStringifyItems]
    cases hv : jsonStringify v with
    | none => rw [hv] at h1; simp at h1
    | some sv =>
      cases hr : jsonStringifyItems rest with
      | none => rw [hr] at h2; simp at h2
      | some srest => simp [Option.bind, hv, hr]
end

/-- Assignment of a serializable value keeps all extras serializable. -/
theorem extrasOk_setExtraList (l : List (String × JsVal)) (k : String)
    (v : JsVal) (hg : extrasOk l = true) (hv : serializableV v = true) :
    extrasOk (setExtraList l k v) = true := by
  induction l with
  | nil => simpa [setExtraList, extrasOk] using hv
  | cons q rest ih =>
    simp only [extrasOk, List.all_cons, Bool.and_eq_true] at hg
    rw [setExtraList]
    by_cases hq : (q.1 == k) = true
    · rw [if_pos hq]
      simp only [extrasOk, List.all_cons, Bool.and_eq_true]
      exact ⟨hv, hg.2⟩
    · rw [if_neg hq]
      simp only [extrasOk, List.all_cons, Bool.and_eq_true]
      exact ⟨hg.1, ih hg.2⟩

/-- Assignment of a serializable value keeps all extras serializable. -/
theorem extrasOk_setExtra (g : GelfMessage) (k : String) (v : JsVal)
    (hg : extrasOk g.extra = true) (hv : serializableV v = true) :
    extrasOk (g.setExtra k v).extra = true :=
  extrasOk_setExtraList g.extra k v hg hv

/-- Fields looked up in a serializable record are serializable. -/
theorem getField_serializable (fs : JsFields) (key : String) (v : JsVal)
    (hs : serializableF fs = true) (h : getField fs key = some v) :
    serializableV v = true := by
  cases fs with
  | fnil => simp [getField] at h
  | fcons k w rest =>
    simp only [serializableF, Bool.and_eq_true] at hs
    rw [getField] at h
    by_cases hk : (k == key) = true
    · rw [if_pos hk] at h
      cases h
      exact hs.1
    · rw [if_neg hk] at h
      exact getField_serializable rest key v hs.2 h

/-- `extractMessage` succeeds on serializable records. -/
theorem extractMessage_isSome (obj : JsFields) (h : serializableF obj = true) :
    (extractMessage obj).isSome = true := by
  have hobj : (jsonStringify (.vobj obj)).isSome = true :=
    jsonStringify_isSome _ (by simpa [serializableV] using h)
  unfold extractMessage
  split
  · rfl
  · split
    · rfl
    · split
      · rfl
      · exact hobj

/-- `stringifyExtras` succeeds on serializable extras. -/
theorem stringifyExtras_isSome (l : List (String × JsVal))
    (h : extrasOk l = true) : (stringifyExtras l).isSome = true := by
  induction l with
  | nil => simp [stringifyExtras]
  | cons p rest ih =>
    simp only [extrasOk, List.all_cons, Bool.and_eq_true] at h
    have h2 : (stringifyExtras rest).isSome = true := ih h.2
    obtain ⟨k, v⟩ := p
    have h1 := jsonStringify_isSome v h.1
    cases v
    case vundef => rw [stringifyExtras]; exact h2
    all_goals obtain ⟨sv, hv2⟩ := Option.isSome_iff_exists.mp h1
    all_goals obtain ⟨srest, hr⟩ := Option.isSome_iff_exists.mp h2
    all_goals simp [stringifyExtras, Option.bind, hv2, hr]

/-- The final `JSON.stringify(gelfMessage)` succeeds when all extras are
serializable. -/
theorem stringifyGelf_isSome (g : GelfMessage) (h : extrasOk g.extra = true) :
    (stringifyGelf g).isSome = true := by
  unfold stringifyGelf
  obtain ⟨parts, hp⟩ := Option.isSome_iff_exists.mp (stringifyExtras_isSome g.extra h)
  simp [Option.bind, hp]

/-- `addStaticMetadata` succeeds on serializable static metadata and keeps
the extras serializable. -/
theorem addStaticMetadata_spec (staticMeta : JsFields) : ∀ (g : GelfMessage),
    extrasOk g.extra = true → serializableF staticMeta = true →
    ∃ g2, addStaticMetadata g staticMeta = some g2 ∧ extrasOk g2.extra = true := by
  cases staticMeta with
  | fnil => intro g hg _; exact ⟨g, rfl, hg⟩
  | fcons key v rest =>
    have ih := addStaticMetadata_spec rest
    intro g hg hm
    simp only [serializableF, Bool.and_eq_true] at hm
    cases v
    case vundef => exact ih g hg hm.2
    case vnull => exact ih g hg hm.2
    case vbig n => exact absurd hm.1 (by simp [serializableV])
    case vobj fs2 =>
      obtain ⟨sv, hsv⟩ := Option.isSome_iff_exists.mp (jsonStringify_isSome _ hm.1)
      show ∃ g2, (if (JsVal.vobj fs2).isObjectLike = true then
          match jsonStringify (JsVal.vobj fs2) with
          | some sv2 => addStaticMetadata (g.setExtra (prefixKey key) (.vstr sv2)) rest
          | none => none
        else addStaticMetadata (g.setExtra (prefixKey key) (JsVal.vobj fs2)) rest) =
          some g2 ∧ extrasOk g2.extra = true
      rw [if_pos (show (JsVal.vobj fs2).isObjectLike = true from rfl), hsv]
      exact ih _ (extrasOk_setExtra g _ _ hg rfl) hm.2
    case varr xs2 =>
      obtain ⟨sv, hsv⟩ := Option.isSome_iff_exists.mp (jsonStringify_isSome _ hm.1)
      show ∃ g2, (if (JsVal.varr xs2).isObjectLike = true then
          match jsonStringify (JsVal.varr xs2) with
          | some sv2 => addStaticMetadata (g.setExtra (prefixKey key) (.vstr sv2)) rest
          | none => none
        else addStaticMetadata (g.setExtra (prefixKey key) (JsVal.varr xs2)) rest) =
          some g2 ∧ extrasOk g2.extra = true
      rw [if_pos (show (JsVal.varr xs2).isObjectLike = true from rfl), hsv]
      exact ih _ (extrasOk_setExtra g _ _ hg rfl) hm.2
    case vstr s =>
      show ∃ g2, (if (JsVal.vstr s).isObjectLike = true then
          match jsonStringify (JsVal.vstr s) with
          | some sv2 => addStaticMetadata (g.setExtra (prefixKey key) (.vstr sv2)) rest
          | none => none
        else addStaticMetadata (g.setExtra (prefixKey key) (JsVal.vstr s)) rest) =
          some g2 ∧ extrasOk g2.extra = true
      rw [if_neg (show ¬ (JsVal.vstr s).isObjectLike = true by simp [JsVal.isObjectLike])]
      exact ih _ (extrasOk_setExtra g _ _ hg hm.1) hm.2
    case vnum n =>
      show ∃ g2, (if (JsVal.vnum n).isObjectLike = true then
          match jsonStringify (JsVal.vnum n) with
          | some sv2 => addStaticMetadata (g.setExtra (prefixKey key) (.vstr sv2)) rest
          | none => none
        else addStaticMetadata (g.setExtra (prefixKey key) (JsVal.vnum n)) rest) =
          some g2 ∧ extrasOk g2.extra = true
      rw [if_neg (show ¬ (JsVal.vnum n).isObjectLike = true by simp [JsVal.isObjectLike])]
      exact ih _ (extrasOk_setExtra g _ _ hg hm.1) hm.2
    case vbool b =>
      show ∃ g2, (if (JsVal.vbool b).isObjectLike = true then
          match jsonStringify (JsVal.vbool b) with
          | some sv2 => addStaticMetadata (g.setExtra (prefixKey key) (.vstr sv2)) rest
          | none => none
        else addStaticMetadata (g.setExtra (prefixKey key) (JsVal.vbool b)) rest) =
          some g2 ∧ extrasOk g2.extra = true
      rw [if_neg (show ¬ (JsVal.vbool b).isObjectLike = true by simp [JsVal.isObjectLike])]
      exact ih _ (extrasOk_setExtra g _ _ hg hm.1) hm.2

/-- `addStackTrace` never touches the extras. -/
theorem addStackTrace_extra (g : GelfMessage) (obj : JsFields) :
    (addStackTrace g obj).extra = g.extra := by
  unfold addStackTrace
  split
  · rfl
  · split
    · split
      · rfl
      · rfl
    · rfl

/-- The custom-field loop succeeds on serializable records and keeps the
extras serializable. -/
theorem addCustomFieldsLoop_spec (obj : JsFields) : ∀ (g : GelfMessage),
    extrasOk g.extra = true → serializableF obj = true →
    ∃ g2, addCustomFieldsLoop g obj = some g2 ∧ extrasOk g2.extra = true := by
  cases obj with
  | fnil => intro g hg _; exact ⟨g, rfl, hg⟩
  | fcons key v rest =>
    have ih := addCustomFieldsLoop_spec rest
    intro g hg ho
    simp only [serializableF, Bool.and_eq_true] at ho
    show ∃ g2, (if EXCLUDED_FIELDS.contains key = true then
        addCustomFieldsLoop g rest
      else
        match v with
        | .vundef => addCustomFieldsLoop g rest
        | .vnull => addCustomFieldsLoop g rest
        | v2 =>
          if g.hasExtra (prefixKey key) = true then addCustomFieldsLoop g rest
          else if v2.isObjectLike = true then
            match jsonStringify v2 with
            | some sv =>
              addCustomFieldsLoop (g.setExtra (prefixKey key) (.vstr sv)) rest
            | none => none
          else addCustomFieldsLoop (g.setExtra (prefixKey key) v2) rest) =
        some g2 ∧ extrasOk g2.extra = true
    by_cases hex : EXCLUDED_FIELDS.contains key = true
    · rw [if_pos hex]
      exact ih g hg ho.2
    · rw [if_neg hex]
      cases v with
      | vundef => exact ih g hg ho.2
      | vnull => exact ih g hg ho.2
      | vbig n => exact absurd ho.1 (by simp [serializableV])
      | vobj fs2 =>
        dsimp only
        by_cases hhas : g.hasExtra (prefixKey key) = true
        · rw [if_pos hhas]
          exact ih g hg ho.2
        · rw [if_neg hhas,
            if_pos (show (JsVal.vobj fs2).isObjectLike = true from rfl)]
          obtain ⟨sv, hsv⟩ := Option.isSome_iff_exists.mp (jsonStringify_isSome _ ho.1)
          rw [hsv]
          exact ih _ (extrasOk_setExtra g _ _ hg rfl) ho.2
      | varr xs2 =>
        dsimp only
        by_cases hhas : g.hasExtra (prefixKey key) = true
        · rw [if_pos hhas]
          exact ih g hg ho.2
        · rw [if_neg hhas,
            if_pos (show (JsVal.varr xs2).isObjectLike = true from rfl)]
          obtain ⟨sv, hsv⟩ := Option.isSome_iff_exists.mp (jsonStringify_isSome _ ho.1)
          rw [hsv]
          exact ih _ (extrasOk_setExtra g _ _ hg rfl) ho.2
      | vstr s =>
        dsimp only
        by_cases hhas : g.hasExtra (prefixKey key) = true
        · rw [if_pos hhas]
          exact ih g hg ho.2
        · rw [if_neg hhas,
            if_neg (show ¬ (JsVal.vstr s).isObjectLike = true by
              simp [JsVal.isObjectLike])]
          exact ih _ (extrasOk_setExtra g _ _ hg ho.1) ho.2
      | vnum n =>
        dsimp only
        by_cases hhas : g.hasExtra (prefixKey key) = true
        · rw [if_pos hhas]
          exact ih g hg ho.2
        · rw [if_neg hhas,
            if_neg (show ¬ (JsVal.vnum n).isObjectLike = true by
              simp [JsVal.isObjectLike])]
          exact ih _ (extrasOk_setExtra g _ _ hg ho.1) ho.2
      | vbool b =>
        dsimp only
        by_cases hhas : g.hasExtra (prefixKey key) = true
        · rw [if_pos hhas]
          exact ih g hg ho.2
        · rw [if_neg hhas,
            if_neg (show ¬ (JsVal.vbool b).isObjectLike = true by
              simp [JsVal.isObjectLike])]
          exact ih _ (extrasOk_setExtra g _ _ hg ho.1) ho.2

/-- `addCustomFields` succeeds on serializable records and keeps the
extras serializable. -/
theorem addCustomFields_spec (g : GelfMessage) (obj : JsFields)
    (hg : extrasOk g.extra = true) (ho : serializableF obj = true) :
    ∃ g2, addCustomFields g obj = some g2 ∧ extrasOk g2.extra = true := by
  obtain ⟨g1, h1, hok1⟩ := addCustomFieldsLoop_spec obj g hg ho
  cases hpid : getField obj "pid" with
  | none => exact ⟨g1, by simp [addCustomFields, Option.bind, h1, hpid], hok1⟩
  | some v =>
    have hsv := getField_serializable obj "pid" v ho hpid
    by_cases ht : v.truthy = true
    · exact ⟨g1.setExtra "_pid" v,
        by simp [addCustomFields, Option.bind, h1, hpid, ht],
        extrasOk_setExtra g1 _ _ hok1 hsv⟩
    · exact ⟨g1, by simp [addCustomFields, Option.bind, h1, hpid, ht], hok1⟩

/-- The base message has serializable extras. -/
theorem gelfInit_extrasOk (obj : JsFields) (hostname facility : String)
    (now : Rat) (shortMsg : String) :
    extrasOk (gelfInit obj hostname facility now shortMsg).extra = true := by
  unfold gelfInit
  dsimp only
  split
  · exact extrasOk_setExtra _ _ _ rfl rfl
  · rfl

/-- `buildGelf` succeeds whenever the parsed record and the static
metadata are serializable, and the built message has serializable
extras. -/
theorem buildGelf_spec (chunk : JsVal) (hostname facility : String)
    (staticMeta : JsFields) (now : Rat)
    (hobj : serializableF (parseChunk chunk) = true)
    (hmeta : serializableF staticMeta = true) :
    ∃ g, buildGelf chunk hostname facility staticMeta now = some g ∧
      extrasOk g.extra = true := by
  obtain ⟨sm, hsm⟩ := Option.isSome_iff_exists.mp (extractMessage_isSome _ hobj)
  obtain ⟨g2, hst, hok2⟩ := addStaticMetadata_spec staticMeta
    (gelfInit (parseChunk chunk) hostname facility now sm)
    (gelfInit_extrasOk _ _ _ _ _) hmeta
  obtain ⟨gf, hcf, hokf⟩ := addCustomFields_spec
    (addStackTrace g2 (parseChunk chunk)) (parseChunk chunk)
    (by rw [addStackTrace_extra]; exact hok2) hobj
  refine ⟨gf, ?_, hokf⟩
  unfold buildGelf
  dsimp only
  rw [hsm]
  simp [Option.bind_eq_bind, Option.some_bind, hst, hcf]

/-- `formatGelfMessage` succeeds whenever the parsed record and the static
metadata are serializable. -/
theorem formatGelfMessage_isSome (chunk : JsVal) (hostname facility : String)
    (staticMeta : JsFields) (now : Rat)
    (hobj : serializableF (parseChunk chunk) = true)
    (hmeta : serializableF staticMeta = true) :
    (formatGelfMessage chunk hostname facility staticMeta now).isSome = true := by
  obtain ⟨g, hg, hok⟩ := buildGelf_spec chunk hostname facility staticMeta now hobj hmeta
  obtain ⟨str, hs⟩ := Option.isSome_iff_exists.mp (stringifyGelf_isSome g hok)
  unfold formatGelfMessage
  rw [hg]
  simp [Option.bind, hs]

/-- C6 fails as stated: a record containing a non-serializable value (a
BigInt here; a cyclic object behaves the same) makes the final
`JSON.stringify` throw, the exception escapes `formatGelfMessage` and
`_write` (which has no try/catch), so neither returns and the failure
never reaches the error callback. -/
theorem formatGelf_throws_on_bigint :
    ((formatGelfMessage (JsVal.vobj (JsFields.fcons "msg" (JsVal.vstr "hi")
        (JsFields.fcons "data" (JsVal.vbig 1) JsFields.fnil)))
      "host" "fac" JsFields.fnil 0) = none) ∧
    ((writeChunk (JsVal.vobj (JsFields.fcons "msg" (JsVal.vstr "hi")
        (JsFields.fcons "data" (JsVal.vbig 1) JsFields.fnil)))
      "host" "fac" JsFields.fnil 0 (Transport.init 1000 false)) = none) :=
  ⟨rfl, rfl⟩

/-- C6 (amended): for every chunk whose parsed record holds only
JSON-serializable values and every serializable static-field map,
`formatGelfMessage` returns a wire-message string without throwing, and
`_write` completes, invoking its stream callback; a raw string chunk that
does not look like JSON falls back to wrapping the raw payload as the
`msg` field, which becomes the message text. -/
theorem formatGelf_write_total (chunk : JsVal) (hostname facility : String)
    (staticMeta : JsFields) (now : Rat) (ts : Transport)
    (hobj : serializableF (parseChunk chunk) = true)
    (hmeta : serializableF staticMeta = true) :
    ((formatGelfMessage chunk hostname facility staticMeta now).isSome = true) ∧
    ((writeChunk chunk hostname facility staticMeta now ts).isSome = true) ∧
    (∀ s0 : String, looksLikeJson s0 = false →
      (parseChunk (.vstr s0) = .fcons "msg" (.vstr s0) .fnil) ∧
      (extractMessage (.fcons "msg" (.vstr s0) .fnil) = some s0)) := by
  have hfmt := formatGelfMessage_isSome chunk hostname facility staticMeta now hobj hmeta
  refine ⟨hfmt, ?_, ?_⟩
  · obtain ⟨str, hstr⟩ := Option.isSome_iff_exists.mp hfmt
    unfold writeChunk
    rw [hstr]
    rfl
  · intro s0 h0
    refine ⟨?_, rfl⟩
    unfold parseChunk
    dsimp only
    rw [if_neg (by rw [h0]; exact Bool.false_ne_true)]

/-- Witness for `formatGelf_write_total` on a concrete record and static
map. -/
theorem formatGelf_write_total_witness :
    ((formatGelfMessage (JsVal.vobj (JsFields.fcons "msg" (JsVal.vstr "hello")
        (JsFields.fcons "level" (JsVal.vnum 30) JsFields.fnil)))
      "h" "f" (JsFields.fcons "app" (JsVal.vstr "svc") JsFields.fnil) 0).isSome = true) ∧
    ((writeChunk (JsVal.vobj (JsFields.fcons "msg" (JsVal.vstr "hello")
        (JsFields.fcons "level" (JsVal.vnum 30) JsFields.fnil)))
      "h" "f" (JsFields.fcons "app" (JsVal.vstr "svc") JsFields.fnil) 0
      (Transport.init 1000 false)).isSome = true) ∧
    (∀ s0 : String, looksLikeJson s0 = false →
      (parseChunk (.vstr s0) = .fcons "msg" (.vstr s0) .fnil) ∧
      (extractMessage (.fcons "msg" (.vstr s0) .fnil) = some s0)) :=
  formatGelf_write_total
    (JsVal.vobj (JsFields.fcons "msg" (JsVal.vstr "hello")
      (JsFields.fcons "level" (JsVal.vnum 30) JsFields.fnil)))
    "h" "f" (JsFields.fcons "app" (JsVal.vstr "svc") JsFields.fnil) 0
    (Transport.init 1000 false) rfl rfl

/-- Looking up the key just assigned returns the new value. -/
theorem lookupExtra_setExtraList_self (l : List (String × JsVal)) (k : String)
    (v : JsVal) : lookupExtra (setExtraList l k v) k = some v := by
  induction l with
  | nil => simp [setExtraList, lookupExtra]
  | cons q rest ih =>
    rw [setExtraList]
    by_cases hq : (q.1 == k) = true
    · rw [if_pos hq, lookupExtra]
      simp
    · rw [if_neg hq, lookupExtra, if_neg hq]
      exact ih

/-- Assignment under one key leaves every other key's binding unchanged. -/
theorem lookupExtra_setExtraList_ne (l : List (String × JsVal)) (k k2 : String)
    (v : JsVal) (h : k2 ≠ k) :
    lookupExtra (setExtraList l k v) k2 = lookupExtra l k2 := by
  induction l with
  | nil =>
    simp [setExtraList, lookupExtra, beq_eq_false_iff_ne.mpr (Ne.symm h)]
  | cons q rest ih =>
    rw [setExtraList]
    by_cases hq : (q.1 == k) = true
    · rw [if_pos hq]
      have hq2 : q.1 = k := by simpa using hq
      rw [lookupExtra, lookupExtra, hq2]
      rw [if_neg (by simp [beq_eq_false_iff_ne.mpr (Ne.symm h)]),
        if_neg (by simp [beq_eq_false_iff_ne.mpr (Ne.symm h)])]
    · rw [if_neg hq, lookupExtra, lookupExtra]
      by_cases hq2 : (q.1 == k2) = true
      · rw [if_pos hq2, if_pos hq2]
      · rw [if_neg hq2, if_neg hq2]
        exact ih

/-- The key just assigned is present. -/
theorem hasExtra_setExtra_self (g : GelfMessage) (k : String) (v : JsVal) :
    (g.setExtra k v).hasExtra k = true := by
  unfold GelfMessage.hasExtra GelfMessage.setExtra
  rw [lookupExtra_setExtraList_self]
  rfl

/-- Assignment under one key does not change another key's presence. -/
theorem hasExtra_setExtra_ne (g : GelfMessage) (k k2 : String) (v : JsVal)
    (h : k2 ≠ k) : (g.setExtra k v).hasExtra k2 = g.hasExtra k2 := by
  unfold GelfMessage.hasExtra GelfMessage.setExtra
  rw [lookupExtra_setExtraList_ne g.extra k k2 v h]

/-- Reading the key just assigned returns the new value. -/
theorem getExtra_setExtra_self (g : GelfMessage) (k : String) (v : JsVal) :
    (g.setExtra k v).getExtra k = some v := by
  unfold GelfMessage.getExtra GelfMessage.setExtra
  exact lookupExtra_setExtraList_self g.extra k v

/-- Assignment under one key leaves another key's value unchanged. -/
theorem getExtra_setExtra_ne (g : GelfMessage) (k k2 : String) (v : JsVal)
    (h : k2 ≠ k) : (g.setExtra k v).getExtra k2 = g.getExtra k2 := by
  unfold GelfMessage.getExtra GelfMessage.setExtra
  exact lookupExtra_setExtraList_ne g.extra k k2 v h

/-- One iteration of the custom-field loop either leaves the message
unchanged, assigns under the underscore-prefixed key of the current record
field when that key was absent, or aborts on a serialization throw. -/
theorem addCustomFieldsLoop_cons_cases (g : GelfMessage) (key1 : String)
    (v1 : JsVal) (rest : JsFields) :
    (addCustomFieldsLoop g (.fcons key1 v1 rest) = addCustomFieldsLoop g rest) ∨
    (∃ w, g.hasExtra (prefixKey key1) = false ∧
      addCustomFieldsLoop g (.fcons key1 v1 rest) =
        addCustomFieldsLoop (g.setExtra (prefixKey key1) w) rest) ∨
    (addCustomFieldsLoop g (.fcons key1 v1 rest) = none) := by
  by_cases hex : EXCLUDED_FIELDS.contains key1 = true
  · cases v1 <;> (left; simp only [addCustomFieldsLoop]; rw [if_pos hex])
  · cases v1 with
    | vundef =>
      left
      simp only [addCustomFieldsLoop]
      rw [if_neg hex]
    | vnull =>
      left
      simp only [addCustomFieldsLoop]
      rw [if_neg hex]
    | vstr s =>
      by_cases hhas : g.hasExtra (prefixKey key1) = true
      · left
        simp only [addCustomFieldsLoop]
        rw [if_neg hex]
        rw [if_pos hhas]
      · refine Or.inr (Or.inl ⟨.vstr s, by simpa using hhas, ?_⟩)
        simp only [addCustomFieldsLoop]
        rw [if_neg hex]
        rw [if_neg hhas,
          if_neg (show ¬ (JsVal.vstr s).isObjectLike = true by
            simp [JsVal.isObjectLike])]
    | vnum n =>
      by_cases hhas : g.hasExtra (prefixKey key1) = true
      · left
        simp only [addCustomFieldsLoop]
        rw [if_neg hex]
        rw [if_pos hhas]
      · refine Or.inr (Or.inl ⟨.vnum n, by simpa using hhas, ?_⟩)
        simp only [addCustomFieldsLoop]
        rw [if_neg hex]
        rw [if_neg hhas,
          if_neg (show ¬ (JsVal.vnum n).isObjectLike = true by
            simp [JsVal.isObjectLike])]
    | vbool b =>
      by_cases hhas : g.hasExtra (prefixKey key1) = true
      · left
        simp only [addCustomFieldsLoop]
        rw [if_neg hex]
        rw [if_pos hhas]
      · refine Or.inr (Or.inl ⟨.vbool b, by simpa using hhas, ?_⟩)
        simp only [addCustomFieldsLoop]
        rw [if_neg hex]
        rw [if_neg hhas,
          if_neg (show ¬ (JsVal.vbool b).isObjectLike = true by
            simp [JsVal.isObjectLike])]
    | vbig n =>
      by_cases hhas : g.hasExtra (prefixKey key1) = true
      · left
        simp only [addCustomFieldsLoop]
        rw [if_neg hex]
        rw [if_pos hhas]
      · refine Or.inr (Or.inl ⟨.vbig n, by simpa using hhas, ?_⟩)
        simp only [addCustomFieldsLoop]
        rw [if_neg hex]
        rw [if_neg hhas,
          if_neg (show ¬ (JsVal.vbig n).isObjectLike = true by
            simp [JsVal.isObjectLike])]
    | vobj fs2 =>
      by_cases hhas : g.hasExtra (prefixKey key1) = true
      · left
        simp only [addCustomFieldsLoop]
        rw [if_neg hex]
        rw [if_pos hhas]
      · cases hsv : jsonStringify (JsVal.vobj fs2) with
        | some sv =>
          refine Or.inr (Or.inl ⟨.vstr sv, by simpa using hhas, ?_⟩)
          simp only [addCustomFieldsLoop]
          rw [if_neg hex]
          rw [if_neg hhas,
            if_pos (show (JsVal.vobj fs2).isObjectLike = true from rfl), hsv]
        | none =>
          refine Or.inr (Or.inr ?_)
          simp only [addCustomFieldsLoop]
          rw [if_neg hex]
          rw [if_neg hhas,
            if_pos (show (JsVal.vobj fs2).isObjectLike = true from rfl), hsv]
    | varr xs2 =>
      by_cases hhas : g.hasExtra (prefixKey key1) = true
      · left
        simp only [addCustomFieldsLoop]
        rw [if_neg hex]
        rw [if_pos hhas]
      · cases hsv : jsonStringify (JsVal.varr xs2) with
        | some sv =>
          refine Or.inr (Or.inl ⟨.vstr sv, by simpa using hhas, ?_⟩)
          simp only [addCustomFieldsLoop]
          rw [if_neg hex]
          rw [if_neg hhas,
            if_pos (show (JsVal.varr xs2).isObjectLike = true from rfl), hsv]
        | none =>
          refine Or.inr (Or.inr ?_)
          simp only [addCustomFieldsLoop]
          rw [if_neg hex]
          rw [if_neg hhas,
            if_pos (show (JsVal.varr xs2).isObjectLike = true from rfl), hsv]

/-- A found key is among the record's keys. -/
theorem getField_mem_keys (fs : JsFields) (key : String) (v : JsVal)
    (h : getField fs key = some v) : key ∈ jsKeys fs := by
  cases fs with
  | fnil => simp [getField] at h
  | fcons k w rest =>
    rw [getField] at h
    by_cases hk : (k == key) = true
    · have : k = key := by simpa using hk
      rw [jsKeys, this]
      exact List.mem_cons_self _ _
    · rw [if_neg hk] at h
      exact List.mem_cons_of_mem _ (getField_mem_keys rest key v h)

/-- The custom-field loop never overwrites an already-set field. -/
theorem addCustomFieldsLoop_preserves (obj : JsFields) : ∀ (g : GelfMessage)
    (k : String), g.hasExtra k = true →
    ∀ g2, addCustomFieldsLoop g obj = some g2 →
      (g2.getExtra k = g.getExtra k) ∧ (g2.hasExtra k = true) := by
  cases obj with
  | fnil =>
    intro g k hk g2 h2
    cases h2
    exact ⟨rfl, hk⟩
  | fcons key1 v1 rest =>
    have ih := addCustomFieldsLoop_preserves rest
    intro g k hk g2 h2
    rcases addCustomFieldsLoop_cons_cases g key1 v1 rest with hc | ⟨w, hw, hc⟩ | hc
    · rw [hc] at h2
      exact ih g k hk g2 h2
    · rw [hc] at h2
      have hne : k ≠ prefixKey key1 := by
        intro he
        rw [he, hw] at hk
        exact Bool.false_ne_true hk
      have hrec := ih (g.setExtra (prefixKey key1) w) k
        (by rw [hasExtra_setExtra_ne g (prefixKey key1) k w hne]; exact hk) g2 h2
      rw [getExtra_setExtra_ne g (prefixKey key1) k w hne] at hrec
      exact hrec
    · rw [hc] at h2
      exact Option.noConfusion h2

/-- `addCustomFields` (loop plus the `_pid` assignment) never overwrites
an already-set field other than `_pid`. -/
theorem addCustomFields_preserves (g : GelfMessage) (obj : JsFields)
    (k : String) (hk : g.hasExtra k = true) (hne : k ≠ "_pid") :
    ∀ g2, addCustomFields g obj = some g2 → g2.getExtra k = g.getExtra k := by
  intro g2 h2
  unfold addCustomFields at h2
  cases h1 : addCustomFieldsLoop g obj with
  | none =>
    rw [h1] at h2
    simp [Option.bind_eq_bind] at h2
  | some g1 =>
    rw [h1] at h2
    simp only [Option.bind_eq_bind, Option.some_bind] at h2
    have hpres := addCustomFieldsLoop_preserves obj g k hk g1 h1
    cases hpid : getField obj "pid" with
    | none =>
      rw [hpid] at h2
      dsimp only at h2
      cases h2
      exact hpres.1
    | some v =>
      rw [hpid] at h2
      dsimp only at h2
      by_cases ht : v.truthy = true
      · rw [if_pos ht] at h2
        cases h2
        rw [getExtra_setExtra_ne g1 "_pid" k v hne]
        exact hpres.1
      · rw [if_neg ht] at h2
        cases h2
        exact hpres.1

/-- The head step of the loop on a non-reserved key with a non-skipped,
previously unset value: the field is assigned (objects and arrays after
serialization, which may throw). -/
theorem addCustomFieldsLoop_cons_set (g : GelfMessage) (key1 : String)
    (v1 : JsVal) (rest : JsFields)
    (hex : EXCLUDED_FIELDS.contains key1 = false)
    (hnu : v1 ≠ .vundef) (hnn : v1 ≠ .vnull)
    (hhas : g.hasExtra (prefixKey key1) = false) :
    (∀ sv, jsonStringify v1 = some sv → v1.isObjectLike = true →
      addCustomFieldsLoop g (.fcons key1 v1 rest) =
        addCustomFieldsLoop (g.setExtra (prefixKey key1) (.vstr sv)) rest) ∧
    (v1.isObjectLike = true → jsonStringify v1 = none →
      addCustomFieldsLoop g (.fcons key1 v1 rest) = none) ∧
    (v1.isObjectLike = false →
      addCustomFieldsLoop g (.fcons key1 v1 rest) =
        addCustomFieldsLoop (g.setExtra (prefixKey key1) v1) rest) := by
  have hexF : ¬ EXCLUDED_FIELDS.contains key1 = true := by
    rw [hex]
    exact Bool.false_ne_true
  have hhasF : ¬ g.hasExtra (prefixKey key1) = true := by simp [hhas]
  cases v1 with
  | vundef => exact absurd rfl hnu
  | vnull => exact absurd rfl hnn
  | vstr s =>
    refine ⟨?_, ?_, ?_⟩
    · intro sv _ hobjl
      simp [JsVal.isObjectLike] at hobjl
    · intro hobjl
      simp [JsVal.isObjectLike] at hobjl
    · intro _
      simp only [addCustomFieldsLoop]
      rw [if_neg hexF, if_neg hhasF,
        if_neg (show ¬ (JsVal.vstr s).isObjectLike = true by
          simp [JsVal.isObjectLike])]
  | vnum n =>
    refine ⟨?_, ?_, ?_⟩
    · intro sv _ hobjl
      simp [JsVal.isObjectLike] at hobjl
    · intro hobjl
      simp [JsVal.isObjectLike] at hobjl
    · intro _
      simp only [addCustomFieldsLoop]
      rw [if_neg hexF, if_neg hhasF,
        if_neg (show ¬ (JsVal.vnum n).isObjectLike = true by
          simp [JsVal.isObjectLike])]
  | vbool b =>
    refine ⟨?_, ?_, ?_⟩
    · intro sv _ hobjl
      simp [JsVal.isObjectLike] at hobjl
    · intro hobjl
      simp [JsVal.isObjectLike] at hobjl
    · intro _
      simp only [addCustomFieldsLoop]
      rw [if_neg hexF, if_neg hhasF,
        if_neg (show ¬ (JsVal.vbool b).isObjectLike = true by
          simp [JsVal.isObjectLike])]
  | vbig n =>
    refine ⟨?_, ?_, ?_⟩
    · intro sv hsv _
      simp [jsonStringify] at hsv
    · intro hobjl
      simp [JsVal.isObjectLike] at hobjl
    · intro _
      simp only [addCustomFieldsLoop]
      rw [if_neg hexF, if_neg hhasF,
        if_neg (show ¬ (JsVal.vbig n).isObjectLike = true by
          simp [JsVal.isObjectLike])]
  | vobj fs2 =>
    refine ⟨?_, ?_, ?_⟩
    · intro sv hsv _
      simp only [addCustomFieldsLoop]
      rw [if_neg hexF, if_neg hhasF,
        if_pos (show (JsVal.vobj fs2).isObjectLike = true from rfl), hsv]
    · intro _ hnone
      simp only [addCustomFieldsLoop]
      rw [if_neg hexF, if_neg hhasF,
        if_pos (show (JsVal.vobj fs2).isObjectLike = true from rfl), hnone]
    · intro hobjl
      simp [JsVal.isObjectLike] at hobjl
  | varr xs2 =>
    refine ⟨?_, ?_, ?_⟩
    · intro sv hsv _
      simp only [addCustomFieldsLoop]
      rw [if_neg hexF, if_neg hhasF,
        if_pos (show (JsVal.varr xs2).isObjectLike = true from rfl), hsv]
    · intro _ hnone
      simp only [addCustomFieldsLoop]
      rw [if_neg hexF, if_neg hhasF,
        if_pos (show (JsVal.varr xs2).isObjectLike = true from rfl), hnone]
    · intro hobjl
      simp [JsVal.isObjectLike] at hobjl

/-- A non-reserved record field whose underscore-prefixed name is not yet
set becomes a custom field with exactly that name, with object/array
values serialized to a JSON string and other values stored as they are —
provided the record's prefixed keys are pairwise distinct. -/
theorem addCustomFieldsLoop_sets (obj : JsFields) : ∀ (g : GelfMessage)
    (key : String) (v : JsVal),
    getField obj key = some v →
    EXCLUDED_FIELDS.contains key = false →
    v ≠ .vundef → v ≠ .vnull →
    g.hasExtra (prefixKey key) = false →
    ((jsKeys obj).map prefixKey).Nodup →
    ∀ g2, addCustomFieldsLoop g obj = some g2 →
      (v.isObjectLike = true →
        ∃ sv, jsonStringify v = some sv ∧
          g2.getExtra (prefixKey key) = some (.vstr sv)) ∧
      (v.isObjectLike = false → g2.getExtra (prefixKey key) = some v) := by
  cases obj with
  | fnil =>
    intro g key v hget
    simp [getField] at hget
  | fcons key1 v1 rest =>
    have ihsets := addCustomFieldsLoop_sets rest
    intro g key v hget hex hnu hnn hhas hnd g2 h2
    rw [getField] at hget
    by_cases hk1 : (key1 == key) = true
    · have hk1eq : key1 = key := by simpa using hk1
      rw [if_pos hk1] at hget
      cases hget
      have hset := addCustomFieldsLoop_cons_set g key1 v1 rest
        (hk1eq ▸ hex) hnu hnn (hk1eq ▸ hhas)
      by_cases hobjl : v1.isObjectLike = true
      · refine ⟨fun _ => ?_, fun hobjlF => absurd hobjl (by simp [hobjlF])⟩
        cases hsv : jsonStringify v1 with
        | none =>
          rw [hset.2.1 hobjl hsv] at h2
          exact Option.noConfusion h2
        | some sv =>
          rw [hset.1 sv hsv hobjl] at h2
          have hpres := addCustomFieldsLoop_preserves rest
            (g.setExtra (prefixKey key1) (.vstr sv)) (prefixKey key1)
            (hasExtra_setExtra_self g (prefixKey key1) (.vstr sv)) g2 h2
          refine ⟨sv, rfl, ?_⟩
          rw [← hk1eq, hpres.1,
            getExtra_setExtra_self g (prefixKey key1) (.vstr sv)]
      · have hobjlF : v1.isObjectLike = false := by
          cases hb : v1.isObjectLike
          · rfl
          · exact absurd hb hobjl
        refine ⟨fun hc => absurd hc hobjl, fun _ => ?_⟩
        rw [hset.2.2 hobjlF] at h2
        have hpres := addCustomFieldsLoop_preserves rest
          (g.setExtra (prefixKey key1) v1) (prefixKey key1)
          (hasExtra_setExtra_self g (prefixKey key1) v1) g2 h2
        rw [← hk1eq, hpres.1, getExtra_setExtra_self g (prefixKey key1) v1]
    · rw [if_neg hk1] at hget
      have hndc : (∀ x ∈ jsKeys rest, ¬ prefixKey x = prefixKey key1) ∧
          ((jsKeys rest).map prefixKey).Nodup := by
        simpa [jsKeys] using hnd
      have hkne : prefixKey key ≠ prefixKey key1 :=
        hndc.1 key (getField_mem_keys rest key v hget)
      rcases addCustomFieldsLoop_cons_cases g key1 v1 rest with hc | ⟨w, _, hc⟩ | hc
      · rw [hc] at h2
        exact ihsets g key v hget hex hnu hnn hhas hndc.2 g2 h2
      · rw [hc] at h2
        exact ihsets (g.setExtra (prefixKey key1) w) key v hget hex hnu hnn
          (by rw [hasExtra_setExtra_ne g (prefixKey key1) (prefixKey key) w hkne]
              exact hhas)
          hndc.2 g2 h2
      · rw [hc] at h2
        exact Option.noConfusion h2

/-- C9 fails as stated: the trailing `if (obj.pid) gelfMessage._pid =
obj.pid` assignment has no `in`-check, so a truthy record `pid` (9 here)
overwrites the `_pid` field that the static metadata had already set
to 7 — a record-derived custom field overwrites a static field. -/
theorem addCustomFields_pid_overwrites_static :
    ((addStaticMetadata pidBaseW
        (JsFields.fcons "pid" (JsVal.vnum 7) JsFields.fnil)).map
      (fun g => g.getExtra "_pid") = some (some (JsVal.vnum 7))) ∧
    ((buildGelf (JsVal.vobj (JsFields.fcons "msg" (JsVal.vstr "m")
        (JsFields.fcons "pid" (JsVal.vnum 9) JsFields.fnil)))
      "h" "" (JsFields.fcons "pid" (JsVal.vnum 7) JsFields.fnil) 0).map
      (fun g => g.getExtra "_pid") = some (some (JsVal.vnum 9))) ∧
    ((9 : Int) ≠ 7) :=
  ⟨rfl, rfl, by decide⟩

/-- C9 (amended): (a) the custom-field loop never overwrites an
already-set field; (b) `addCustomFields` as a whole never overwrites an
already-set field other than `_pid` (a truthy record `pid` is written last
and does overwrite `_pid`); (c) a non-reserved record field with a
non-null, non-undefined value whose underscore-prefixed name is not yet
taken becomes a custom field under that name, object/array values being
serialized to a JSON string and all other values stored as they are
(assuming the record's prefixed keys are distinct); (d) `buildGelf`
applies the static fields strictly before the record-derived custom
fields. -/
theorem customFields_correct :
    (∀ (obj : JsFields) (g : GelfMessage) (k : String), g.hasExtra k = true →
      ∀ g2, addCustomFieldsLoop g obj = some g2 →
        g2.getExtra k = g.getExtra k) ∧
    (∀ (g : GelfMessage) (obj : JsFields) (k : String), g.hasExtra k = true →
      k ≠ "_pid" → ∀ g2, addCustomFields g obj = some g2 →
        g2.getExtra k = g.getExtra k) ∧
    (∀ (obj : JsFields) (g : GelfMessage) (key : String) (v : JsVal),
      getField obj key = some v → EXCLUDED_FIELDS.contains key = false →
      v ≠ .vundef → v ≠ .vnull → g.hasExtra (prefixKey key) = false →
      ((jsKeys obj).map prefixKey).Nodup →
      ∀ g2, addCustomFieldsLoop g obj = some g2 →
        (v.isObjectLike = true →
          ∃ sv, jsonStringify v = some sv ∧
            g2.getExtra (prefixKey key) = some (.vstr sv)) ∧
        (v.isObjectLike = false → g2.getExtra (prefixKey key) = some v)) ∧
    (∀ (chunk : JsVal) (hostname facility : String) (staticMeta : JsFields)
        (now : Rat),
      buildGelf chunk hostname facility staticMeta now =
        (extractMessage (parseChunk chunk)).bind (fun sm =>
          (addStaticMetadata
              (gelfInit (parseChunk chunk) hostname facility now sm)
              staticMeta).bind (fun gz =>
            addCustomFields (addStackTrace gz (parseChunk chunk))
              (parseChunk chunk)))) :=
  ⟨fun obj g k hk g2 h2 => (addCustomFieldsLoop_preserves obj g k hk g2 h2).1,
   fun g obj k hk hne => addCustomFields_preserves g obj k hk hne,
   addCustomFieldsLoop_sets,
   fun _ _ _ _ _ => rfl⟩

/-- Witness for `customFields_correct` on a concrete base message (with a
`_facility` static-style extra) and a concrete record with an object field
and a number field. -/
theorem customFields_correct_witness :
    (cfLoopW.getExtra "_facility" = gelfW.getExtra "_facility") ∧
    (cfFullW.getExtra "_facility" = gelfW.getExtra "_facility") ∧
    (∃ sv, jsonStringify (.vobj (.fcons "id" (.vnum 5) .fnil)) = some sv ∧
      cfLoopW.getExtra "_user" = some (.vstr sv)) ∧
    (cfLoopW.getExtra "_count" = some (.vnum 3)) ∧
    (buildGelf JsVal.vnull "h" "f" JsFields.fnil 0 =
      (extractMessage (parseChunk JsVal.vnull)).bind (fun sm =>
        (addStaticMetadata
            (gelfInit (parseChunk JsVal.vnull) "h" "f" 0 sm)
            JsFields.fnil).bind (fun gz =>
          addCustomFields (addStackTrace gz (parseChunk JsVal.vnull))
            (parseChunk JsVal.vnull)))) :=
  ⟨customFields_correct.1 objW gelfW "_facility" rfl cfLoopW rfl,
   customFields_correct.2.1 gelfW objW "_facility" rfl
     (by decide) cfFullW rfl,
   (customFields_correct.2.2.1 objW gelfW "user"
     (.vobj (.fcons "id" (.vnum 5) .fnil)) rfl rfl
     (by intro h; cases h) (by intro h; cases h) rfl (by decide)
     cfLoopW rfl).1 rfl,
   (customFields_correct.2.2.1 objW gelfW "count" (.vnum 3) rfl rfl
     (by intro h; cases h) (by intro h; cases h) rfl (by decide)
     cfLoopW rfl).2 rfl,
   customFields_correct.2.2.2 JsVal.vnull "h" "f" JsFields.fnil 0⟩

/-- C7: a message of at most 8192 bytes (in particular exactly 8192) is
handed to the socket for delivery with an error-free callback; a message
over 8192 bytes is rejected — the error callback and the per-call callback
both receive the descriptive oversize error, and nothing is written to the
socket (no truncation, the datagram log is unchanged). -/
theorem UdpClient.send_size_limit (s : UdpClient) (message : List Nat)
    (hinit : s.bunSocketInitializing = false) :
    (message.length ≤ 8192 →
      ((s.send message).1.datagrams = s.datagrams ++ [message]) ∧
      ((s.send message).2 = some none)) ∧
    (message.length > 8192 →
      ((s.send message).1.datagrams = s.datagrams) ∧
      ((s.send message).2 = some (some (oversizeError message.length))) ∧
      ((s.send message).1.errors = s.errors ++ [oversizeError message.length])) := by
  unfold UdpClient.send
  dsimp only
  by_cases hg : s.nodeSocket = false ∧ s.bunSocket = false ∧
      s.bunSocketInitializing = false
  · rw [if_pos hg]
    have hc : s.connect = { s with isClosed := false, nodeSocket := true } := by
      unfold UdpClient.connect
      rw [if_neg (by simp [hg.1, hg.2.1, hg.2.2])]
    rw [hc]
    constructor
    · intro hle
      rw [if_neg (by omega)]
      rw [if_neg (show ¬ ({ s with isClosed := false, nodeSocket := true } : UdpClient).bunSocket = true by simpa using hg.2.1),
        if_pos (show ({ s with isClosed := false, nodeSocket := true } : UdpClient).nodeSocket = true from rfl)]
      exact ⟨rfl, rfl⟩
    · intro hgt
      rw [if_pos hgt]
      exact ⟨rfl, rfl, rfl⟩
  · rw [if_neg hg]
    have hsock : s.nodeSocket = true ∨ s.bunSocket = true := by
      by_cases hn : s.nodeSocket = true
      · exact Or.inl hn
      · by_cases hb : s.bunSocket = true
        · exact Or.inr hb
        · exact absurd ⟨by simpa using hn, by simpa using hb, hinit⟩ hg
    constructor
    · intro hle
      rw [if_neg (by omega)]
      rcases hsock with hn | hb
      · by_cases hb2 : s.bunSocket = true
        · rw [if_pos hb2]
          exact ⟨rfl, rfl⟩
        · rw [if_neg hb2, if_pos hn]
          exact ⟨rfl, rfl⟩
      · rw [if_pos hb]
        exact ⟨rfl, rfl⟩
    · intro hgt
      rw [if_pos hgt]
      exact ⟨rfl, rfl, rfl⟩

/-- Witness for `UdpClient.send_size_limit`: exactly 8192 bytes sends,
8193 bytes is rejected. -/
theorem UdpClient.send_size_limit_witness :
    (((UdpClient.init.send datagram8192).1.datagrams =
        UdpClient.init.datagrams ++ [datagram8192]) ∧
      ((UdpClient.init.send datagram8192).2 = some none)) ∧
    (((UdpClient.init.send datagram8193).1.datagrams =
        UdpClient.init.datagrams) ∧
      ((UdpClient.init.send datagram8193).2 =
        some (some (oversizeError datagram8193.length))) ∧
      ((UdpClient.init.send datagram8193).1.errors =
        UdpClient.init.errors ++ [oversizeError datagram8193.length])) :=
  ⟨(UdpClient.send_size_limit UdpClient.init datagram8192 rfl).1
      (by simp only [datagram8192, List.length_replicate]; omega),
   (UdpClient.send_size_limit UdpClient.init datagram8193 rfl).2
      (by simp only [datagram8193, List.length_replicate]; omega)⟩

/-- A `send` on a client with no socket and no pending initialization
first re-creates the Node socket and then delivers the message. -/
theorem UdpClient.send_connects (s : UdpClient) (message : List Nat)
    (hn : s.nodeSocket = false) (hb : s.bunSocket = false)
    (hi : s.bunSocketInitializing = false) (hlen : message.length ≤ 8192) :
    ((s.send message).1 =
      { s with isClosed := false, nodeSocket := true,
               datagrams := s.datagrams ++ [message] }) ∧
    ((s.send message).2 = some none) := by
  unfold UdpClient.send
  dsimp only
  have hg : s.nodeSocket = false ∧ s.bunSocket = false ∧
      s.bunSocketInitializing = false := ⟨hn, hb, hi⟩
  rw [if_pos hg]
  have hc : s.connect = { s with isClosed := false, nodeSocket := true } := by
    unfold UdpClient.connect
    rw [if_neg (by simp [hn, hb, hi])]
  rw [hc, if_neg (by omega),
    if_neg (show ¬ ({ s with isClosed := false, nodeSocket := true } : UdpClient).bunSocket = true by simpa using hb),
    if_pos (show ({ s with isClosed := false, nodeSocket := true } : UdpClient).nodeSocket = true from rfl)]
  exact ⟨rfl, rfl⟩

/-- C10: `close()` is not terminal — `send` on a client that was closed
(or never initialized) first re-creates the local socket via `connect()`
and then delivers the admissible-size message to the fresh socket with an
error-free callback, rather than dropping it or raising. -/
theorem UdpClient.send_after_close (s : UdpClient) (message : List Nat)
    (hlen : message.length ≤ 8192) :
    ((((s.close).send message).1.datagrams = (s.close).datagrams ++ [message]) ∧
      (((s.close).send message).1.nodeSocket = true) ∧
      (((s.close).send message).1.isClosed = false) ∧
      (((s.close).send message).2 = some none)) ∧
    (((UdpClient.init.send message).1.datagrams = [message]) ∧
      ((UdpClient.init.send message).2 = some none)) := by
  have h1 := UdpClient.send_connects (s.close) message rfl rfl rfl hlen
  have h2 := UdpClient.send_connects UdpClient.init message rfl rfl rfl hlen
  refine ⟨⟨?_, ?_, ?_, h1.2⟩, ?_, h2.2⟩
  · rw [h1.1]
  · rw [h1.1]
  · rw [h1.1]
  · rw [h2.1]
    rfl

/-- Witness for `UdpClient.send_after_close`: a closed client that had
already sent one datagram accepts a new one after `close()`. -/
theorem UdpClient.send_after_close_witness :
    (((((UdpClient.init.send [1]).1.close).send [2]).1.datagrams =
        ((UdpClient.init.send [1]).1.close).datagrams ++ [[2]]) ∧
      ((((UdpClient.init.send [1]).1.close).send [2]).1.nodeSocket = true) ∧
      ((((UdpClient.init.send [1]).1.close).send [2]).1.isClosed = false) ∧
      ((((UdpClient.init.send [1]).1.close).send [2]).2 = some none)) ∧
    (((UdpClient.init.send [2]).1.datagrams = [[2]]) ∧
      ((UdpClient.init.send [2]).2 = some none)) :=
  UdpClient.send_after_close (UdpClient.init.send [1]).1 [2] (by simp)
